import Mathlib

/-!
# UART Scope: the serial line decoder and the rolling channel history

A shallow embedding of `MainWindow::updatePlot`, `MainWindow::clearPlot`,
`MainWindow::updatePlotData`, `MainWindow::stopAcquisition`, `MainWindow::startAcquisition`,
`MainWindow::pauseResume` and the constructor (src/software/cpp-version/src/mainwindow.cpp),
of `PlotManager::updatePlotData` (src/software/cpp-version/src/plotmanager.cpp), and of the
line `Oscilloscope::acquireData` sends (src/firmware/src/oscilloscope.cpp).

* A `QByteArray` is a `List Byte`, a byte being its numeric value.
* A `QVector<double>` of samples is a `List Int`: the only values ever stored are `0`
  and results of `toInt`, all of which a double holds exactly.
* The Qt container primitives the code calls (`split`, `join`, `trimmed`, `right`, `mid`,
  `toInt`) are library code; they are modelled after their documented behaviour.
  `fill(0, n)` is `List.replicate n 0`.
* `MAX_PLOT_POINTS` is a macro of the header; the functions take the depth as the
  argument `maxPoints`, the program being the instance `maxPoints = MAX_PLOT_POINTS`.
-/

namespace UartScope

/-! ## Constants (mainwindow.h) -/

/-- A byte of the serial stream, by its numeric value. -/
abbrev Byte := Nat

/-- The macro `CHANNELS` of mainwindow.h. -/
def CHANNELS : Nat := 4

/-- The macro `MAX_PLOT_POINTS` of mainwindow.h. -/
def MAX_PLOT_POINTS : Nat := 1000

/-- The newline byte, the argument of `serialData.split`. -/
def NL : Byte := 10

/-- The tab byte, the argument of `line.split`. -/
def TAB : Byte := 9

/-! ## Qt primitives -/

/-- The whitespace test of `QByteArray::trimmed` and of `toInt`: the bytes 9 to 13 and the
space. -/
def isSpace (c : Byte) : Bool := (decide (9 ≤ c) && decide (c ≤ 13)) || c == 32

/-- A decimal digit byte. -/
def isDigit (c : Byte) : Bool := decide (48 ≤ c) && decide (c ≤ 57)

/-- The function `QByteArray::split(sep)`: the segments between the occurrences of `sep`;
a byte array with `n` separators gives `n + 1` segments, the empty array gives one empty
segment. -/
def split (sep : Byte) : List Byte → List (List Byte)
  | [] => [[]]
  | c :: cs =>
    if c = sep then [] :: split sep cs
    else
      match split sep cs with
      | [] => [[c]]
      | h :: t => (c :: h) :: t

/-- The function `QList<QByteArray>::join(sep)`: the segments with `sep` between
neighbours. -/
def join (sep : Byte) : List (List Byte) → List Byte
  | [] => []
  | [l] => l
  | l :: l2 :: ls => l ++ sep :: join sep (l2 :: ls)

/-- The function `QByteArray::trimmed()`: whitespace removed from both ends. -/
def trimmed (b : List Byte) : List Byte :=
  ((b.dropWhile isSpace).reverse.dropWhile isSpace).reverse

/-- The function `QByteArray::right(len)`: the trailing `len` bytes, the whole array when
it is shorter. -/
def right (b : List Byte) (len : Nat) : List Byte :=
  b.drop (b.length - len)

/-- The function `QVector::mid(pos)`: the elements from position `pos` to the end; a
negative `pos` gives the whole vector, a `pos` past the end the empty one. -/
def mid {α : Type} (v : List α) (pos : Int) : List α :=
  if pos < 0 then v else v.drop pos.toNat

/-- The value of a run of decimal digits, most significant first. -/
def digitsValue (ds : List Byte) : Nat :=
  ds.foldl (fun acc d => 10 * acc + (d - 48)) 0

/-- The least value of a C++ `int`. -/
def INT_MIN : Int := -2147483648

/-- The greatest value of a C++ `int`. -/
def INT_MAX : Int := 2147483647

/-- The function `QByteArray::toInt(&ok)` in base 10, as the pair `(value, ok)`: leading
whitespace, an optional sign, at least one digit, trailing whitespace and nothing else;
a value outside the range of `int` fails. A failure returns `(0, false)`. -/
def toInt (b : List Byte) : Int × Bool :=
  let s := b.dropWhile isSpace
  let neg := s.head? == some 45
  let r := if s.head? == some 45 || s.head? == some 43 then s.tail else s
  let ds := r.takeWhile isDigit
  let rest := r.dropWhile isDigit
  if ds.isEmpty || !(rest.all isSpace) then (0, false)
  else
    let v : Int := if neg then -((digitsValue ds : Nat) : Int) else ((digitsValue ds : Nat) : Int)
    if INT_MIN ≤ v ∧ v ≤ INT_MAX then (v, true) else (0, false)

/-! ## State -/

/-- The fields of `MainWindow` that the acquisition path reads and writes. `portOpen`
stands for `serialPort && serialPort->isOpen()`. -/
structure MainWindow where
  isAcquiring : Bool
  isPaused : Bool
  portOpen : Bool
  serialData : List Byte
  plotData : List (List Int)
deriving DecidableEq

/-- The channel buffers the constructor builds (mainwindow.cpp lines 21-25):
`CHANNELS` series of `maxPoints` zeros. -/
def initPlotData (maxPoints : Nat) : List (List Int) :=
  List.replicate CHANNELS (List.replicate maxPoints 0)

/-- The vector `xData` the constructor builds (lines 27-30): `xData[i] = i`. -/
def xData (maxPoints : Nat) : List Int :=
  List.map Int.ofNat (List.range maxPoints)

/-! ## `MainWindow::updatePlot` -/

/-- Lines 280-284: the new bytes are appended and a buffer longer than 100000 bytes is
cut to its trailing 50000. -/
def appendData (serialData newData : List Byte) : List Byte :=
  let d := serialData ++ newData
  if d.length > 100000 then right d 50000 else d

/-- Lines 292-294 for one channel: `for j < maxPoints - batchSize: a[j] = a[j + batchSize]`,
run in place, in increasing `j`. -/
def shiftSeries (maxPoints batchSize : Nat) (a : List Int) : List Int :=
  (List.range (maxPoints - batchSize)).foldl
    (fun a j => a.set j (a.getD (j + batchSize) 0)) a

/-- Lines 291-295: every channel `i < CHANNELS` is shifted. -/
def shiftAll (maxPoints batchSize : Nat) (plotData : List (List Int)) : List (List Int) :=
  (List.range CHANNELS).foldl
    (fun pd i => pd.set i (shiftSeries maxPoints batchSize (pd.getD i []))) plotData

/-- The assignment `plotData[i][idx] = value`. -/
def setSample (plotData : List (List Int)) (i idx : Nat) (value : Int) : List (List Int) :=
  plotData.set i ((plotData.getD i []).set idx value)

/-- Lines 302-308: each of the `CHANNELS` parts is converted on its own and stored when
its conversion succeeds. The index `maxPoints - batchSize + l` is computed in `int`;
a negative index (only possible when `batchSize > maxPoints`) stores nothing. -/
def writeParts (maxPoints batchSize l : Nat) (parts : List (List Byte))
    (plotData : List (List Int)) : List (List Int) :=
  (List.range CHANNELS).foldl
    (fun pd i =>
      if (toInt (parts.getD i [])).2 ∧ batchSize ≤ maxPoints + l then
        setSample pd i (maxPoints + l - batchSize) (toInt (parts.getD i [])).1
      else pd) plotData

/-- Lines 298-310, the body of the loop over the batch for the line `raw = lines[l]`. -/
def writeLine (maxPoints batchSize l : Nat) (raw : List Byte)
    (plotData : List (List Int)) : List (List Int) :=
  let line := trimmed raw
  if line.isEmpty then plotData
  else
    let parts := split TAB line
    if parts.length = CHANNELS then writeParts maxPoints batchSize l parts plotData
    else plotData

/-- Lines 297-311: the loop `for l < batchSize`. -/
def writeBatch (maxPoints batchSize : Nat) (lines : List (List Byte))
    (plotData : List (List Int)) : List (List Int) :=
  (List.range batchSize).foldl
    (fun pd l => writeLine maxPoints batchSize l (lines.getD l []) pd) plotData

/-- Lines 286-316: the buffer is split at the newlines; when there is a complete line,
`batchSize = min(10, lines.size() - 1)` lines are taken, every channel is shifted by
`batchSize`, the lines are decoded into the freed slots, and the lines that were taken are
removed from the buffer. (The throttled redraw of lines 318-322 changes no field.) -/
def drain (maxPoints : Nat) (s : MainWindow) : MainWindow :=
  let lines := split NL s.serialData
  if lines.length > 1 then
    let batchSize := min 10 (lines.length - 1)
    let shifted := shiftAll maxPoints batchSize s.plotData
    let written := writeBatch maxPoints batchSize lines shifted
    { s with serialData := join NL (lines.drop batchSize), plotData := written }
  else s

/-- The function `MainWindow::updatePlot` (lines 275-329), `newData` being what
`serialPort->readAll()` returns. -/
def updatePlot (maxPoints : Nat) (s : MainWindow) (newData : List Byte) : MainWindow :=
  if s.isAcquiring && !s.isPaused && s.portOpen then
    if !newData.isEmpty then
      drain maxPoints { s with serialData := appendData s.serialData newData }
    else s
  else s

/-! ## `PlotManager::updatePlotData`, `MainWindow::updatePlotData`, `MainWindow::clearPlot` -/

/-- One call `plotItems[i]->setData(visibleXData, visibleYData)` (plotmanager.cpp line 119):
the channel index and the two vectors handed to the graph. -/
structure SetData where
  channel : Nat
  xs : List Int
  ys : List Int
deriving DecidableEq

/-- What one run of `PlotManager::updatePlotData` hands to the graphs. -/
inductive PlotUpdate where
  /-- An axis is selected: the run returns at line 98 and hands over nothing. -/
  | skipped : PlotUpdate
  /-- The loop of lines 113-121 ran: its `setData` calls, in order. -/
  | setData (calls : List SetData) : PlotUpdate
  /-- Every channel is empty: every graph is cleared (lines 123-125). -/
  | cleared : PlotUpdate
deriving DecidableEq

/-- The function `PlotManager::updatePlotData` (plotmanager.cpp lines 91-137).
`axisSelected` stands for the test of line 95. A visible channel `i` gets `data[i]` and
`xData` from index `maxPlotPoints - currentLength` on; a channel that is not visible gets
no call. (The redraw throttle of lines 128-136 hands over no data.) -/
def PlotManager.updatePlotData (channelCount maxPlotPoints : Nat) (axisSelected : Bool)
    (data : List (List Int)) (xData : List Int) (currentLength : Int)
    (channelVisibility : List Bool) : PlotUpdate :=
  if axisSelected then PlotUpdate.skipped
  else if data.any (fun channel => !channel.isEmpty) then
    PlotUpdate.setData ((List.range channelCount).filterMap (fun i =>
      if channelVisibility.getD i false then
        some ⟨i, mid xData ((maxPlotPoints : Int) - currentLength),
          mid (data.getD i []) ((maxPlotPoints : Int) - currentLength)⟩
      else none))
  else PlotUpdate.cleared

/-- The function `MainWindow::updatePlotData` (mainwindow.cpp lines 265-273): `checked`
are the states of the channel buttons, `sliderValue` is `scaleXSlider->value()`. -/
def MainWindow.updatePlotData (maxPoints : Nat) (s : MainWindow) (axisSelected : Bool)
    (checked : List Bool) (sliderValue : Int) : PlotUpdate :=
  PlotManager.updatePlotData CHANNELS maxPoints axisSelected s.plotData (xData maxPoints)
    sliderValue ((List.range CHANNELS).map (fun i => checked.getD i false))

/-- The function `MainWindow::clearPlot` (mainwindow.cpp lines 91-103): every channel is
refilled with `maxPoints` zeros (`fill(0, MAX_PLOT_POINTS)`), then the view is handed to
the plot. The result is the new state and that view. -/
def MainWindow.clearPlot (maxPoints : Nat) (s : MainWindow) (axisSelected : Bool)
    (checked : List Bool) (sliderValue : Int) : MainWindow × PlotUpdate :=
  let filled := (List.range CHANNELS).foldl
    (fun pd i => pd.set i (List.replicate maxPoints 0)) s.plotData
  let cleared : MainWindow := { s with plotData := filled }
  (cleared, MainWindow.updatePlotData maxPoints cleared axisSelected checked sliderValue)

/-! ## Derived notions used to state the properties -/

/-- The value the loop body of lines 298-310 leaves in the slot of channel `c` for the
line `raw`, the slot holding `old` before: the converted part when the line is not empty
after trimming, has `CHANNELS` parts and part `c` converts; `old` otherwise. -/
def lineSlot (raw : List Byte) (c : Nat) (old : Int) : Int :=
  if (trimmed raw).isEmpty then old
  else if (split TAB (trimmed raw)).length = CHANNELS then
    if (toInt ((split TAB (trimmed raw)).getD c [])).2 then
      (toInt ((split TAB (trimmed raw)).getD c [])).1
    else old
  else old

/-- The effect of lines 303-307 on the series of channel `i`. -/
def storePart (maxPoints batchSize l : Nat) (parts : List (List Byte)) (i : Nat)
    (a : List Int) : List Int :=
  if (toInt (parts.getD i [])).2 ∧ batchSize ≤ maxPoints + l then
    a.set (maxPoints + l - batchSize) (toInt (parts.getD i [])).1
  else a

/-- The batch a drain takes: `min(10, lines.size() - 1)` (line 289). -/
def batchSize (serialData : List Byte) : Nat :=
  min 10 ((split NL serialData).length - 1)

/-- The complete lines a drain removes, each followed by `sep`, as bytes. -/
def unlines (sep : Byte) : List (List Byte) → List Byte
  | [] => []
  | l :: ls => l ++ sep :: unlines sep ls

/-- The decimal digits of `n`, most significant first, as ASCII bytes; `fuel` bounds the
number of digits. -/
def digitsFuel : Nat → Nat → List Byte
  | 0, _ => []
  | fuel + 1, n => if n < 10 then [48 + n] else digitsFuel fuel (n / 10) ++ [48 + n % 10]

/-- The decimal text of a natural number. -/
def renderNat (n : Nat) : List Byte := digitsFuel (n + 1) n

/-- The decimal text of an integer: a minus sign for a negative value, then the digits. -/
def renderInt (v : Int) : List Byte :=
  if v < 0 then 45 :: renderNat v.natAbs else renderNat v.natAbs

/-- The text of one record on the wire, without its newline: the values in decimal with a
tab between neighbours. -/
def renderRecord (r : List Int) : List Byte := join TAB (r.map renderInt)

/-- A value a C++ `int` can hold. -/
def InIntRange (v : Int) : Prop := INT_MIN ≤ v ∧ v ≤ INT_MAX

instance (v : Int) : Decidable (InIntRange v) := by unfold InIntRange; infer_instance

/-- A record of the wire format: `CHANNELS` values, each an `int`. -/
def WellFormedRecord (r : List Int) : Prop := r.length = CHANNELS ∧ ∀ v ∈ r, InIntRange v

instance (r : List Int) : Decidable (WellFormedRecord r) := by
  unfold WellFormedRecord; infer_instance

/-- The record of a consumed line `raw = lines[l]` that passes every check of lines
298-305: it is not empty after trimming, it has `CHANNELS` parts, and every part converts.
A line that fails a check yields no record. -/
def decodeLine (raw : List Byte) : Option (List Int) :=
  let line := trimmed raw
  if line.isEmpty then none
  else
    let parts := split TAB line
    if parts.length = CHANNELS then
      if parts.all (fun p => (toInt p).2) then some (parts.map (fun p => (toInt p).1))
      else none
    else none

/-- The records a drain of the buffer `serialData` decodes, in arrival order: those of
the lines of its batch. -/
def decodedRecords (serialData : List Byte) : List (List Int) :=
  let lines := split NL serialData
  if lines.length > 1 then (lines.take (min 10 (lines.length - 1))).filterMap decodeLine
  else []

/-- A field without whitespace: not empty, and no byte of it is a whitespace byte (so it
holds neither a tab nor a newline). -/
def PlainField (f : List Byte) : Prop := f ≠ [] ∧ ∀ x ∈ f, isSpace x = false

/-- The records one poll decodes: those of the drain of the appended buffer, when the
poll is active and the read is not empty; none otherwise. -/
def pollRecords (s : MainWindow) (newData : List Byte) : List (List Int) :=
  if s.isAcquiring && !s.isPaused && s.portOpen then
    if !newData.isEmpty then decodedRecords (appendData s.serialData newData) else []
  else []

/-- One poll per chunk, in order: the final state and the records decoded along the way,
in order. -/
def feed (maxPoints : Nat) : MainWindow → List (List Byte) → MainWindow × List (List Int)
  | s, [] => (s, [])
  | s, chunk :: chunks =>
    let r := feed maxPoints (updatePlot maxPoints s chunk) chunks
    (r.1, pollRecords s chunk ++ r.2)

/-- The bytes of a list of chunks, in order. -/
def allBytes : List (List Byte) → List Byte
  | [] => []
  | chunk :: chunks => chunk ++ allBytes chunks

/-- The valid records among the complete (newline-terminated) lines of a byte sequence,
in order. -/
def validRecords (b : List Byte) : List (List Int) :=
  ((split NL b).dropLast).filterMap decodeLine

/-- The suffix of a byte sequence that follows its `m`-th newline byte (the whole sequence
for `m = 0`, nothing when it has fewer than `m` newlines). -/
def dropLines : Nat → List Byte → List Byte
  | 0, b => b
  | _ + 1, [] => []
  | m + 1, c :: cs => if c = NL then dropLines m cs else dropLines (m + 1) cs

/-- The loop of `Oscilloscope::acquireData` (firmware/src/oscilloscope.cpp lines 14-17):
for every channel value, `Serial.print(value)`, the value in decimal, then
`Serial.print('\t')`. -/
def emitValues : List Int → List Byte
  | [] => []
  | v :: vs => renderInt v ++ TAB :: emitValues vs

/-- The line one run of `Oscilloscope::acquireData` sends (lines 14-19): the values, each
followed by a tab, then the carriage return and the newline of `Serial.println()`. The
firmware's values are `uint8_t`; the function is stated for any integer values. -/
def acquireDataLine (values : List Int) : List Byte :=
  emitValues values ++ [13, 10]

/-- The state the constructor `MainWindow::MainWindow` leaves (mainwindow.cpp lines 10-34
with `setupSerial`): no port, not acquiring, not paused, an empty raw buffer, and
`CHANNELS` series of `maxPoints` zeros. -/
def MainWindow.init (maxPoints : Nat) : MainWindow :=
  ⟨false, false, false, [], initPlotData maxPoints⟩

/-- The function `MainWindow::stopAcquisition` (mainwindow.cpp lines 216-231). `hasPort`
stands for the test `if (serialPort)`: with a port, the port is closed, acquisition is
off and every channel is refilled with `maxPoints` zeros; without one nothing happens. -/
def MainWindow.stopAcquisition (maxPoints : Nat) (hasPort : Bool) (s : MainWindow) :
    MainWindow :=
  if hasPort then
    let filled := (List.range CHANNELS).foldl
      (fun pd i => pd.set i (List.replicate maxPoints 0)) s.plotData
    { s with isAcquiring := false, portOpen := false, plotData := filled }
  else s

/-- The function `MainWindow::startAcquisition` (mainwindow.cpp lines 180-214).
`configured` stands for `serialPort && baudRate > 0`, `openOk` for the result of
`serialPort->open`. A failed open runs `stopAcquisition`; a successful one starts the
acquisition with an empty raw buffer. -/
def MainWindow.startAcquisition (maxPoints : Nat) (configured openOk : Bool)
    (s : MainWindow) : MainWindow :=
  if !configured then s
  else if !s.isAcquiring then
    if !openOk then MainWindow.stopAcquisition maxPoints true { s with portOpen := false }
    else { s with portOpen := true, isAcquiring := true, serialData := [] }
  else s

/-- The function `MainWindow::pauseResume` (mainwindow.cpp lines 63-89), with `configured`
and `openOk` as in `startAcquisition`: pausing closes the port; resuming empties the raw
buffer and reopens the port, and stays paused when the open fails. -/
def MainWindow.pauseResume (configured openOk : Bool) (s : MainWindow) : MainWindow :=
  if !s.isPaused then { s with isPaused := true, portOpen := false }
  else if configured then
    if openOk then
      { s with isPaused := false, serialData := [], portOpen := true, isAcquiring := true }
    else { s with isPaused := true, serialData := [] }
  else { s with isPaused := false, serialData := [] }

/-- One operation on the window: a timer poll with the bytes its read returns, the
"Clear" button, the "Stop" button, the "Start" button, the "Pause/Resume" button, each
with what it reads from its environment. -/
inductive Action where
  | poll (newData : List Byte) : Action
  | clear (axisSelected : Bool) (checked : List Bool) (sliderValue : Int) : Action
  | stop (hasPort : Bool) : Action
  | start (configured openOk : Bool) : Action
  | pauseResume (configured openOk : Bool) : Action

/-- The state after one operation. -/
def step (maxPoints : Nat) (s : MainWindow) : Action → MainWindow
  | Action.poll newData => updatePlot maxPoints s newData
  | Action.clear axisSelected checked sliderValue =>
    (MainWindow.clearPlot maxPoints s axisSelected checked sliderValue).1
  | Action.stop hasPort => MainWindow.stopAcquisition maxPoints hasPort s
  | Action.start configured openOk => MainWindow.startAcquisition maxPoints configured openOk s
  | Action.pauseResume configured openOk => MainWindow.pauseResume configured openOk s

/-- The state after a sequence of operations, in order. -/
def run (maxPoints : Nat) : MainWindow → List Action → MainWindow
  | s, [] => s
  | s, a :: as => run maxPoints (step maxPoints s a) as

/-- The shape of the channel history: `CHANNELS` series, each of length `maxPoints`. -/
def Shaped (maxPoints : Nat) (plotData : List (List Int)) : Prop :=
  plotData.length = CHANNELS ∧ ∀ a ∈ plotData, a.length = maxPoints

instance (maxPoints : Nat) (plotData : List (List Int)) :
    Decidable (Shaped maxPoints plotData) := by
  unfold Shaped; infer_instance

/-- The complete (newline-terminated) lines of a byte sequence, in order, without their
newlines: every segment but the last. -/
def completeLines (b : List Byte) : List (List Byte) :=
  (split NL b).dropLast

/-- The lines of the batch a drain of the buffer `serialData` takes (lines 288-289):
the first `min(10, lines.size() - 1)` segments when there is a complete line, none
otherwise. -/
def batchLines (serialData : List Byte) : List (List Byte) :=
  if (split NL serialData).length > 1 then
    (split NL serialData).take (min 10 ((split NL serialData).length - 1))
  else []

/-! ## Lists, shifting and writing -/

theorem foldl_range_set_length (g : Nat → List Int → List Int) (n : Nat) (pd : List (List Int)) :
    ((List.range n).foldl (fun pd i => pd.set i (g i (pd.getD i []))) pd).length = pd.length := by
  induction n with
  | zero => simp
  | succ n ih =>
    rw [List.range_succ, List.foldl_append]
    simp only [List.foldl_cons, List.foldl_nil, List.length_set]
    exact ih

theorem foldl_range_set_getD (g : Nat → List Int → List Int) (n : Nat) (pd : List (List Int))
    (c : Nat) (hc : c < pd.length) :
    ((List.range n).foldl (fun pd i => pd.set i (g i (pd.getD i []))) pd).getD c []
      = if c < n then g c (pd.getD c []) else pd.getD c [] := by
  induction n with
  | zero => simp
  | succ n ih =>
    have hlen := foldl_range_set_length g n pd
    rw [List.range_succ, List.foldl_append]
    simp only [List.foldl_cons, List.foldl_nil]
    generalize (List.foldl (fun pd i => pd.set i (g i (pd.getD i []))) pd (List.range n)) = X at ih hlen
    rw [List.getD_eq_getElem?_getD, List.getElem?_set]
    by_cases hnc : n = c
    · subst hnc
      have h2 : X.getD n [] = pd.getD n [] := by simpa using ih
      have hX : n < X.length := by omega
      simp only [List.getD_eq_getElem?_getD] at h2 ⊢
      simp only [hX, if_true, Option.getD_some, lt_self_iff_false, Nat.lt_succ_self, h2]
    · rw [List.getD_eq_getElem?_getD] at ih
      simp only [hnc, if_false, ih]
      by_cases h1 : c < n
      · simp [h1, Nat.lt_succ_of_lt h1]
      · have : ¬ c < n + 1 := by omega
        simp [h1, this]

theorem shiftSeries_invariant (b : Nat) (a : List Int) (n : Nat) (hn : n + b ≤ a.length) :
    (List.range n).foldl (fun a j => a.set j (a.getD (j + b) 0)) a
      = (a.drop b).take n ++ a.drop n := by
  induction n with
  | zero => simp
  | succ n ih =>
    rw [List.range_succ, List.foldl_append, ih (by omega)]
    simp only [List.foldl_cons, List.foldl_nil]
    apply List.ext_getElem?
    intro i
    have h1 : (List.take n (List.drop b a) ++ List.drop n a).getD (n + b) 0 = a.getD (n + b) 0 := by
      simp only [List.getD_eq_getElem?_getD]
      congr 1
      rw [List.getElem?_append_right (by simp)]
      simp only [List.length_take, List.length_drop, List.getElem?_drop]
      congr 1
      omega
    rw [h1]
    simp only [List.getElem?_set, List.getD_eq_getElem?_getD, List.getElem?_append, List.getElem?_take, List.getElem?_drop, List.length_append, List.length_take, List.length_drop]
    have e1 : min n (a.length - b) = n := by omega
    have e2 : min (n + 1) (a.length - b) = n + 1 := by omega
    rw [e1, e2]
    by_cases hi : n = i
    · subst hi
      have h4 : n < a.length := by omega
      have h5 : b + n < a.length := by omega
      simp [h4, h5, Nat.add_comm]
    · simp only [hi, if_false]
      by_cases h2 : i < n
      · have : i < n + 1 := by omega
        simp [h2, this]
      · have h3 : ¬ i < n + 1 := by omega
        simp only [h2, h3, if_false]
        congr 1
        omega

theorem shiftSeries_eq (maxPoints b : Nat) (a : List Int) (ha : a.length = maxPoints) :
    shiftSeries maxPoints b a = a.drop b ++ a.drop (maxPoints - b) := by
  unfold shiftSeries
  by_cases hb : b ≤ maxPoints
  · rw [shiftSeries_invariant b a (maxPoints - b) (by omega)]
    congr 1
    apply List.take_of_length_le
    simp; omega
  · have : maxPoints - b = 0 := by omega
    rw [this]
    simp
    omega

theorem set_getD_self (pd : List (List Int)) (i : Nat) : pd.set i (pd.getD i []) = pd := by
  apply List.ext_getElem?
  intro j
  rw [List.getElem?_set, List.getD_eq_getElem?_getD]
  by_cases h : i = j
  · subst h
    by_cases h2 : i < pd.length
    · simp [h2]
    · have h3 : pd.length ≤ i := by omega
      simp [h2, h3]
  · simp [h]

theorem set_getD_self_int (a : List Int) (i : Nat) : a.set i (a.getD i 0) = a := by
  apply List.ext_getElem?
  intro j
  rw [List.getElem?_set, List.getD_eq_getElem?_getD]
  by_cases h : i = j
  · subst h
    by_cases h2 : i < a.length
    · simp [h2]
    · have h3 : a.length ≤ i := by omega
      simp [h2, h3]
  · simp [h]

theorem writeParts_eq (maxPoints batchSize l : Nat) (parts : List (List Byte))
    (pd : List (List Int)) :
    writeParts maxPoints batchSize l parts pd
      = (List.range CHANNELS).foldl (fun pd i => pd.set i
          (storePart maxPoints batchSize l parts i (pd.getD i []))) pd := by
  unfold writeParts storePart
  congr 1
  funext pd i
  by_cases h : (toInt (parts.getD i [])).2 = true ∧ batchSize ≤ maxPoints + l
  · simp only [h, and_self, if_true, setSample]
  · simp only [h, if_false, set_getD_self]

theorem writeLine_length (maxPoints batchSize l : Nat) (raw : List Byte)
    (pd : List (List Int)) :
    (writeLine maxPoints batchSize l raw pd).length = pd.length := by
  unfold writeLine
  simp only
  split
  · rfl
  · split
    · rw [writeParts_eq, foldl_range_set_length]
    · rfl

theorem writeLine_getD (maxPoints batchSize l : Nat) (raw : List Byte)
    (pd : List (List Int)) (c : Nat) (hc : c < CHANNELS) (hpd : c < pd.length)
    (hb : batchSize ≤ maxPoints + l) :
    (writeLine maxPoints batchSize l raw pd).getD c []
      = (pd.getD c []).set (maxPoints + l - batchSize)
          (lineSlot raw c ((pd.getD c []).getD (maxPoints + l - batchSize) 0)) := by
  unfold writeLine lineSlot
  simp only
  by_cases h1 : (trimmed raw).isEmpty = true
  · simp only [h1, if_true, set_getD_self_int]
  · simp only [h1, if_false, Bool.false_eq_true]
    by_cases h2 : (split TAB (trimmed raw)).length = CHANNELS
    · simp only [h2, if_true]
      rw [writeParts_eq, foldl_range_set_getD _ _ _ _ hpd]
      simp only [hc, if_true, hb, and_true, storePart]
      by_cases h3 : (toInt ((split TAB (trimmed raw)).getD c [])).2 = true
      · simp only [h3, if_true]
      · simp only [h3, if_false, set_getD_self_int, Bool.false_eq_true]
    · simp only [h2, if_false, set_getD_self_int]

theorem foldl_slots (f : Nat → Int → Int) (a : List Int) (k n : Nat) (h : k + n ≤ a.length) :
    (List.range n).foldl (fun a l => a.set (k + l) (f l (a.getD (k + l) 0))) a
      = a.take k ++ (List.range n).map (fun l => f l (a.getD (k + l) 0)) ++ a.drop (k + n) := by
  induction n with
  | zero => simp
  | succ n ih =>
    rw [List.range_succ, List.foldl_append, ih (by omega)]
    simp only [List.foldl_cons, List.foldl_nil, List.map_append, List.map_cons, List.map_nil]
    have h1 : (List.take k a ++ List.map (fun l => f l (a.getD (k + l) 0)) (List.range n)
        ++ List.drop (k + n) a).getD (k + n) 0 = a.getD (k + n) 0 := by
      simp only [List.getD_eq_getElem?_getD]
      congr 1
      rw [List.getElem?_append_right (by simp)]
      simp only [List.length_append, List.length_take, List.length_map, List.length_range,
        List.getElem?_drop]
      congr 1
      omega
    rw [h1]
    apply List.ext_getElem?
    intro i
    have e1 : min k a.length = k := by omega
    simp only [List.getElem?_set, List.getElem?_append, List.length_append, List.length_take,
      List.length_map, List.length_range, List.length_cons, List.length_nil, e1,
      List.getElem?_drop]
    by_cases hi : k + n = i
    · subst hi
      have h2 : k + n < a.length := by omega
      simp [h2]
    · simp only [hi, if_false]
      by_cases h3 : i < k
      · have h4 : i < k + n := by omega
        have h5 : i < k + (n + 1) := by omega
        simp [h3, h4, h5]
      · by_cases h4 : i < k + n
        · have h5 : i < k + (n + 1) := by omega
          have h6 : i - k < n := by omega
          simp [h3, h4, h5, h6]
        · have h5 : ¬ i < k + (n + 1) := by omega
          simp only [h4, h5, if_false]
          congr 1
          omega

theorem writeBatch_fold_length (maxPoints batchSize : Nat) (lines : List (List Byte))
    (pd : List (List Int)) (n : Nat) :
    ((List.range n).foldl
      (fun pd l => writeLine maxPoints batchSize l (lines.getD l []) pd) pd).length
      = pd.length := by
  induction n with
  | zero => simp
  | succ n ih =>
    rw [List.range_succ, List.foldl_append]
    simp only [List.foldl_cons, List.foldl_nil]
    rw [writeLine_length, ih]

theorem writeBatch_fold_getD (maxPoints batchSize : Nat) (lines : List (List Byte))
    (pd : List (List Int)) (c : Nat) (hc : c < CHANNELS) (hpd : c < pd.length)
    (hb : batchSize ≤ maxPoints) (n : Nat) :
    ((List.range n).foldl
      (fun pd l => writeLine maxPoints batchSize l (lines.getD l []) pd) pd).getD c []
      = (List.range n).foldl
          (fun a l => a.set (maxPoints - batchSize + l)
            (lineSlot (lines.getD l []) c (a.getD (maxPoints - batchSize + l) 0)))
          (pd.getD c []) := by
  induction n with
  | zero => simp
  | succ n ih =>
    rw [List.range_succ, List.foldl_append, List.foldl_append]
    simp only [List.foldl_cons, List.foldl_nil]
    rw [writeLine_getD _ _ _ _ _ c hc (by rw [writeBatch_fold_length]; exact hpd) (by omega), ih]
    have e : maxPoints + n - batchSize = maxPoints - batchSize + n := by omega
    rw [e]

theorem writeBatch_length (maxPoints batchSize : Nat) (lines : List (List Byte))
    (pd : List (List Int)) :
    (writeBatch maxPoints batchSize lines pd).length = pd.length :=
  writeBatch_fold_length maxPoints batchSize lines pd batchSize

theorem writeBatch_getD (maxPoints batchSize : Nat) (lines : List (List Byte))
    (pd : List (List Int)) (c : Nat) (hc : c < CHANNELS) (hpd : c < pd.length)
    (hb : batchSize ≤ maxPoints) (ha : (pd.getD c []).length = maxPoints) :
    (writeBatch maxPoints batchSize lines pd).getD c []
      = (pd.getD c []).take (maxPoints - batchSize)
        ++ (List.range batchSize).map (fun l =>
            lineSlot (lines.getD l []) c ((pd.getD c []).getD (maxPoints - batchSize + l) 0)) := by
  unfold writeBatch
  rw [writeBatch_fold_getD _ _ _ _ c hc hpd hb,
    foldl_slots (fun l old => lineSlot (lines.getD l []) c old) _ _ _ (by omega)]
  have e : maxPoints - batchSize + batchSize = maxPoints := by omega
  rw [e, List.drop_of_length_le (by omega)]
  simp

theorem shiftAll_length (maxPoints batchSize : Nat) (pd : List (List Int)) :
    (shiftAll maxPoints batchSize pd).length = pd.length :=
  foldl_range_set_length (fun _ => shiftSeries maxPoints batchSize) CHANNELS pd

theorem shiftAll_getD (maxPoints batchSize : Nat) (pd : List (List Int)) (c : Nat)
    (hc : c < CHANNELS) (hpd : c < pd.length) :
    (shiftAll maxPoints batchSize pd).getD c []
      = shiftSeries maxPoints batchSize (pd.getD c []) := by
  unfold shiftAll
  rw [foldl_range_set_getD (fun _ => shiftSeries maxPoints batchSize) CHANNELS pd c hpd]
  simp [hc]

/-- The series of channel `c` after the shift and the writes of a drain that takes `b`
lines: the prior series without its first `b` samples, then one slot per line. -/
theorem drain_series (maxPoints : Nat) (s : MainWindow) (c : Nat)
    (hlines : (split NL s.serialData).length > 1)
    (hb : batchSize s.serialData ≤ maxPoints)
    (hc : c < CHANNELS) (hpd : c < s.plotData.length)
    (ha : (s.plotData.getD c []).length = maxPoints) :
    (drain maxPoints s).plotData.getD c []
      = (s.plotData.getD c []).drop (batchSize s.serialData)
        ++ (List.range (batchSize s.serialData)).map (fun l =>
            lineSlot ((split NL s.serialData).getD l []) c
              ((s.plotData.getD c []).getD (maxPoints - batchSize s.serialData + l) 0)) := by
  unfold drain
  simp only [hlines, if_true]
  unfold batchSize at hb ⊢
  generalize min 10 ((split NL s.serialData).length - 1) = b at hb ⊢
  have hs := shiftAll_getD maxPoints b s.plotData c hc hpd
  have hlen : (shiftSeries maxPoints b (s.plotData.getD c [])).length = maxPoints := by
    rw [shiftSeries_eq _ _ _ ha, List.length_append, List.length_drop, List.length_drop, ha]
    omega
  rw [writeBatch_getD _ _ _ _ c hc (by rw [shiftAll_length]; exact hpd) hb
    (by rw [hs]; exact hlen), hs, shiftSeries_eq _ _ _ ha]
  generalize s.plotData.getD c [] = a at ha
  have hX : (List.drop b a).length = maxPoints - b := by rw [List.length_drop, ha]
  congr 1
  · rw [List.take_append_of_le_length (by omega), List.take_of_length_le (by omega)]
  · apply List.map_congr_left
    intro l _
    congr 1
    simp only [List.getD_eq_getElem?_getD]
    congr 1
    rw [List.getElem?_append_right (by omega), hX, List.getElem?_drop]
    congr 1
    omega

theorem split_ne_nil (sep : Byte) (b : List Byte) : split sep b ≠ [] := by
  cases b with
  | nil => simp [split]
  | cons c cs =>
    unfold split
    split
    · simp
    · split <;> simp

theorem split_length_pos (sep : Byte) (b : List Byte) : 0 < (split sep b).length :=
  List.length_pos.mpr (split_ne_nil sep b)

theorem split_cons_ne (sep c : Byte) (cs : List Byte) (h : c ≠ sep) :
    split sep (c :: cs) = (c :: (split sep cs).headD []) :: (split sep cs).tail := by
  rw [split]
  simp only [h, if_false]
  cases hs : split sep cs with
  | nil => exact absurd hs (split_ne_nil sep cs)
  | cons x xs => simp

theorem split_cons_eq (sep : Byte) (cs : List Byte) :
    split sep (sep :: cs) = [] :: split sep cs := by
  rw [split]
  simp

theorem split_of_not_mem (sep : Byte) (l : List Byte) (h : sep ∉ l) : split sep l = [l] := by
  induction l with
  | nil => simp [split]
  | cons c cs ih =>
    have hc : c ≠ sep := fun e => h (by simp [e])
    have hcs : sep ∉ cs := fun e => h (by simp [e])
    rw [split_cons_ne sep c cs hc, ih hcs]
    simp

theorem split_append_sep (sep : Byte) (l r : List Byte) (h : sep ∉ l) :
    split sep (l ++ sep :: r) = l :: split sep r := by
  induction l with
  | nil => simp [split_cons_eq]
  | cons c cs ih =>
    have hc : c ≠ sep := fun e => h (by simp [e])
    have hcs : sep ∉ cs := fun e => h (by simp [e])
    rw [List.cons_append, split_cons_ne sep c _ hc, ih hcs]
    simp

theorem split_unlines_append (sep : Byte) (ls : List (List Byte)) (y : List Byte)
    (h : ∀ l ∈ ls, sep ∉ l) : split sep (unlines sep ls ++ y) = ls ++ split sep y := by
  induction ls with
  | nil => simp [unlines]
  | cons l ls ih =>
    have h1 : sep ∉ l := h l (by simp)
    have h2 : ∀ x ∈ ls, sep ∉ x := fun x hx => h x (by simp [hx])
    rw [unlines, List.append_assoc, List.cons_append, split_append_sep sep l _ h1, ih h2]
    simp

theorem not_mem_of_mem_split (sep : Byte) (b : List Byte) :
    ∀ l ∈ split sep b, sep ∉ l := by
  induction b with
  | nil => simp [split]
  | cons c cs ih =>
    by_cases hc : c = sep
    · subst hc
      rw [split_cons_eq]
      intro l hl
      rcases List.mem_cons.mp hl with h | h
      · subst h; simp
      · exact ih l h
    · rw [split_cons_ne sep c cs hc]
      intro l hl
      cases hs : split sep cs with
      | nil => exact absurd hs (split_ne_nil sep cs)
      | cons x xs =>
        rw [hs] at hl ih
        simp only [List.headD_cons, List.tail_cons, List.mem_cons] at hl
        rcases hl with h | h
        · subst h
          have hx := ih x (by simp)
          intro hm
          rcases List.mem_cons.mp hm with e | e
          · exact hc e.symm
          · exact hx e
        · exact ih l (by simp [h])

theorem join_split (sep : Byte) (b : List Byte) : join sep (split sep b) = b := by
  induction b with
  | nil => simp [split, join]
  | cons c cs ih =>
    by_cases hc : c = sep
    · subst hc
      rw [split_cons_eq]
      cases hs : split c cs with
      | nil => exact absurd hs (split_ne_nil c cs)
      | cons x xs =>
        rw [hs] at ih
        simp [join, ih]
    · rw [split_cons_ne sep c cs hc]
      cases hs : split sep cs with
      | nil => exact absurd hs (split_ne_nil sep cs)
      | cons x xs =>
        rw [hs] at ih
        cases xs with
        | nil => simpa [join] using ih
        | cons y ys =>
          simp only [join, List.headD_cons, List.tail_cons] at ih ⊢
          simp [ih]

theorem join_append (sep : Byte) (ls1 ls2 : List (List Byte)) (h : ls2 ≠ []) :
    join sep (ls1 ++ ls2) = unlines sep ls1 ++ join sep ls2 := by
  induction ls1 with
  | nil => simp [unlines]
  | cons l ls ih =>
    cases hs : ls ++ ls2 with
    | nil => simp [h] at hs
    | cons x xs =>
      rw [List.cons_append, hs, join, ← hs, ih, unlines]
      simp

/-- The buffer is the lines a drain takes, newline-terminated, followed by what the
drain keeps. -/
theorem buffer_eq_unlines_append (b : List Byte) (k : Nat) (hk : k < (split NL b).length) :
    b = unlines NL ((split NL b).take k) ++ join NL ((split NL b).drop k) := by
  have h1 : (split NL b).drop k ≠ [] := by
    intro h
    have := congrArg List.length h
    simp at this
    omega
  rw [← join_append NL _ _ h1, List.take_append_drop, join_split]

theorem split_length (sep : Byte) (b : List Byte) :
    (split sep b).length = b.count sep + 1 := by
  induction b with
  | nil => simp [split]
  | cons c cs ih =>
    by_cases hc : c = sep
    · subst hc
      rw [split_cons_eq]
      simp [ih]
    · rw [split_cons_ne sep c cs hc]
      have h0 := split_length_pos sep cs
      have h1 : (List.count sep (c :: cs)) = List.count sep cs := by
        rw [List.count_cons]
        simp [hc]
      rw [h1, ← ih]
      simp only [List.length_cons, List.length_tail]
      omega

theorem split_length_le_one_iff (sep : Byte) (b : List Byte) :
    ¬ (split sep b).length > 1 ↔ sep ∉ b := by
  rw [split_length, ← List.count_eq_zero]
  omega

theorem digitsValue_append (xs : List Byte) (d : Byte) :
    digitsValue (xs ++ [d]) = 10 * digitsValue xs + (d - 48) := by
  simp [digitsValue, List.foldl_append]

theorem digitsFuel_spec (fuel : Nat) : ∀ n, n < fuel →
    digitsFuel fuel n ≠ [] ∧ (∀ x ∈ digitsFuel fuel n, isDigit x = true)
      ∧ digitsValue (digitsFuel fuel n) = n := by
  induction fuel with
  | zero => intro n h; omega
  | succ f ih =>
    intro n hn
    rw [digitsFuel]
    by_cases h : n < 10
    · simp only [h, if_true]
      refine ⟨by simp, ?_, ?_⟩
      · intro x hx
        simp only [List.mem_singleton] at hx
        subst hx
        simp [isDigit]
        unfold Byte
        omega
      · simp [digitsValue]
    · simp only [h, if_false]
      obtain ⟨_, h2, h3⟩ := ih (n / 10) (by omega)
      refine ⟨by simp, ?_, ?_⟩
      · intro x hx
        rcases List.mem_append.mp hx with hx | hx
        · exact h2 x hx
        · simp only [List.mem_singleton] at hx
          subst hx
          simp [isDigit]
          unfold Byte
          omega
      · rw [digitsValue_append, h3]
        unfold Byte
        omega

theorem digitsFuel_length (fuel : Nat) : ∀ n k, n < 10 ^ (k + 1) →
    (digitsFuel fuel n).length ≤ k + 1 := by
  induction fuel with
  | zero => intro n k _; simp [digitsFuel]
  | succ f ih =>
    intro n k hn
    rw [digitsFuel]
    by_cases h : n < 10
    · simp [h]
    · simp only [h, if_false, List.length_append, List.length_singleton]
      cases k with
      | zero => simp at hn; omega
      | succ k =>
        have : n / 10 < 10 ^ (k + 1) := by
          rw [Nat.div_lt_iff_lt_mul (by decide)]
          rw [pow_succ] at hn
          exact hn
        have := ih (n / 10) k this
        omega

theorem renderNat_spec (n : Nat) :
    renderNat n ≠ [] ∧ (∀ x ∈ renderNat n, isDigit x = true) ∧ digitsValue (renderNat n) = n :=
  digitsFuel_spec (n + 1) n (by omega)

theorem isSpace_of_isDigit (x : Byte) (h : isDigit x = true) : isSpace x = false := by
  simp [isDigit] at h
  simp [isSpace]
  unfold Byte at *
  omega

theorem dropWhile_eq_self_of_head (p : Byte → Bool) (l : List Byte)
    (h : ∀ x, l.head? = some x → p x = false) : l.dropWhile p = l := by
  cases l with
  | nil => rfl
  | cons x xs =>
    have := h x (by simp)
    simp [List.dropWhile, this]

theorem takeWhile_eq_self_of_all (p : Byte → Bool) (l : List Byte)
    (h : ∀ x ∈ l, p x = true) : l.takeWhile p = l := by
  induction l with
  | nil => rfl
  | cons x xs ih =>
    have h1 := h x (by simp)
    simp only [List.takeWhile, h1]
    rw [ih (fun y hy => h y (by simp [hy]))]

theorem dropWhile_eq_nil_of_all (p : Byte → Bool) (l : List Byte)
    (h : ∀ x ∈ l, p x = true) : l.dropWhile p = [] := by
  induction l with
  | nil => rfl
  | cons x xs ih =>
    have h1 := h x (by simp)
    simp only [List.dropWhile, h1]
    exact ih (fun y hy => h y (by simp [hy]))

theorem toInt_digits (ds : List Byte) (hne : ds ≠ []) (hd : ∀ x ∈ ds, isDigit x = true)
    (hr : (digitsValue ds : Int) ≤ INT_MAX) :
    toInt ds = ((digitsValue ds : Int), true) := by
  cases ds with
  | nil => exact absurd rfl hne
  | cons d ds =>
    have hd0 : isDigit d = true := hd d (by simp)
    have hs0 : isSpace d = false := isSpace_of_isDigit d hd0
    have h45 : d ≠ 45 := by
      intro e; subst e; simp [isDigit] at hd0
    have h43 : d ≠ 43 := by
      intro e; subst e; simp [isDigit] at hd0
    unfold toInt
    have e1 : (d :: ds).dropWhile isSpace = d :: ds := by simp [List.dropWhile, hs0]
    simp only [e1, List.head?_cons]
    have e2 : (some d == some (45 : Byte)) = false := by simp [h45]
    have e3 : (some d == some (43 : Byte)) = false := by simp [h43]
    simp only [e2, e3, Bool.or_self, Bool.false_eq_true, if_false,
      takeWhile_eq_self_of_all isDigit (d :: ds) hd, dropWhile_eq_nil_of_all isDigit (d :: ds) hd]
    have hmin : INT_MIN ≤ (digitsValue (d :: ds) : Int) := by
      unfold INT_MIN; omega
    simp [hmin, hr]

theorem toInt_neg_digits (ds : List Byte) (hne : ds ≠ []) (hd : ∀ x ∈ ds, isDigit x = true)
    (hr : INT_MIN ≤ -(digitsValue ds : Int)) :
    toInt (45 :: ds) = (-(digitsValue ds : Int), true) := by
  have hs0 : isSpace 45 = false := by decide
  unfold toInt
  have e1 : ((45 : Byte) :: ds).dropWhile isSpace = 45 :: ds := by simp [List.dropWhile, hs0]
  simp only [e1, List.head?_cons, List.tail_cons]
  have e2 : (some (45 : Byte) == some (45 : Byte)) = true := by simp
  simp only [e2, Bool.true_or, if_true,
    takeWhile_eq_self_of_all isDigit ds hd, dropWhile_eq_nil_of_all isDigit ds hd]
  have hmax : -(digitsValue ds : Int) ≤ INT_MAX := by
    unfold INT_MAX; omega
  have hne2 : ds.isEmpty = false := by
    cases ds with
    | nil => exact absurd rfl hne
    | cons _ _ => rfl
  simp [hmax, hr, hne2]

theorem toInt_renderInt (v : Int) (hv : InIntRange v) : toInt (renderInt v) = (v, true) := by
  obtain ⟨h1, h2, h3⟩ := renderNat_spec v.natAbs
  unfold InIntRange at hv
  unfold renderInt
  by_cases hneg : v < 0
  · simp only [hneg, if_true]
    rw [toInt_neg_digits _ h1 h2 (by rw [h3]; omega), h3]
    congr 1
    omega
  · simp only [hneg, if_false]
    rw [toInt_digits _ h1 h2 (by rw [h3]; omega), h3]
    congr 1
    omega

theorem lineSlot_of_decodeLine (raw : List Byte) (r : List Int) (c : Nat) (old : Int)
    (h : decodeLine raw = some r) (hc : c < CHANNELS) :
    lineSlot raw c old = r.getD c 0 := by
  unfold decodeLine at h
  unfold lineSlot
  simp only at h
  by_cases h1 : (trimmed raw).isEmpty = true
  · simp [h1] at h
  · simp only [h1, if_false, Bool.false_eq_true] at h ⊢
    by_cases h2 : (split TAB (trimmed raw)).length = CHANNELS
    · simp only [h2, if_true] at h ⊢
      by_cases h3 : (split TAB (trimmed raw)).all (fun p => (toInt p).2) = true
      · simp only [h3, if_true, Option.some.injEq] at h
        have hc2 : c < (split TAB (trimmed raw)).length := by omega
        have h4 : (toInt ((split TAB (trimmed raw)).getD c [])).2 = true := by
          rw [List.all_eq_true] at h3
          apply h3
          rw [List.getD_eq_getElem?_getD, List.getElem?_eq_getElem hc2]
          simp
        simp only [h4, if_true]
        rw [← h]
        simp only [List.getD_eq_getElem?_getD, List.getElem?_map, List.getElem?_eq_getElem hc2]
        simp
      · simp [h3] at h
    · simp [h2] at h

theorem lineSlot_of_empty (raw : List Byte) (c : Nat) (old : Int)
    (h : (trimmed raw).isEmpty = true) : lineSlot raw c old = old := by
  unfold lineSlot
  simp [h]

theorem lineSlot_of_count (raw : List Byte) (c : Nat) (old : Int)
    (h : (split TAB (trimmed raw)).length ≠ CHANNELS) : lineSlot raw c old = old := by
  unfold lineSlot
  simp [h]

theorem decodeLine_of_empty (raw : List Byte) (h : (trimmed raw).isEmpty = true) :
    decodeLine raw = none := by
  unfold decodeLine
  simp [h]

theorem decodeLine_of_count (raw : List Byte)
    (h : (split TAB (trimmed raw)).length ≠ CHANNELS) : decodeLine raw = none := by
  unfold decodeLine
  simp [h]

theorem trimmed_eq_self (b : List Byte) (h1 : ∀ x, b.head? = some x → isSpace x = false)
    (h2 : ∀ x, b.getLast? = some x → isSpace x = false) : trimmed b = b := by
  unfold trimmed
  rw [dropWhile_eq_self_of_head isSpace b h1,
    dropWhile_eq_self_of_head isSpace b.reverse (by rw [List.head?_reverse]; exact h2),
    List.reverse_reverse]

theorem isSpace_TAB : isSpace TAB = true := by decide

theorem decodeLine_fields (f0 f1 f2 f3 : List Byte) (v0 v1 v2 v3 : Int)
    (p0 : PlainField f0) (p1 : PlainField f1) (p2 : PlainField f2) (p3 : PlainField f3)
    (t0 : toInt f0 = (v0, true)) (t1 : toInt f1 = (v1, true))
    (t2 : toInt f2 = (v2, true)) (t3 : toInt f3 = (v3, true)) :
    decodeLine (join TAB [f0, f1, f2, f3]) = some [v0, v1, v2, v3] := by
  have n0 : TAB ∉ f0 := fun h => by have := p0.2 _ h; simp [isSpace_TAB] at this
  have n1 : TAB ∉ f1 := fun h => by have := p1.2 _ h; simp [isSpace_TAB] at this
  have n2 : TAB ∉ f2 := fun h => by have := p2.2 _ h; simp [isSpace_TAB] at this
  have n3 : TAB ∉ f3 := fun h => by have := p3.2 _ h; simp [isSpace_TAB] at this
  have hj : join TAB [f0, f1, f2, f3] = f0 ++ TAB :: (f1 ++ TAB :: (f2 ++ TAB :: f3)) := rfl
  have hsplit : split TAB (join TAB [f0, f1, f2, f3]) = [f0, f1, f2, f3] := by
    rw [hj, split_append_sep _ _ _ n0, split_append_sep _ _ _ n1, split_append_sep _ _ _ n2,
      split_of_not_mem _ _ n3]
  have htrim : trimmed (join TAB [f0, f1, f2, f3]) = join TAB [f0, f1, f2, f3] := by
    apply trimmed_eq_self
    · intro x hx
      rw [hj] at hx
      obtain ⟨a, as, rfl⟩ := List.exists_cons_of_ne_nil p0.1
      simp only [List.cons_append, List.head?_cons, Option.some.injEq] at hx
      subst hx
      exact p0.2 _ (by simp)
    · intro x hx
      rw [hj] at hx
      have e : f0 ++ TAB :: (f1 ++ TAB :: (f2 ++ TAB :: f3))
          = (f0 ++ TAB :: (f1 ++ TAB :: (f2 ++ [TAB]))) ++ f3 := by simp
      rw [e, List.getLast?_append_of_ne_nil _ p3.1] at hx
      exact p3.2 _ (List.mem_of_getLast?_eq_some hx)
  have hne : (join TAB [f0, f1, f2, f3]).isEmpty = false := by
    rw [hj]
    obtain ⟨a, as, rfl⟩ := List.exists_cons_of_ne_nil p0.1
    rfl
  unfold decodeLine
  simp only [htrim, hne, hsplit]
  simp [CHANNELS, t0, t1, t2, t3]

/-! ## Properties of the poll -/

theorem updatePlot_active (maxPoints : Nat) (s : MainWindow) (newData : List Byte)
    (hact : s.isAcquiring = true ∧ s.isPaused = false ∧ s.portOpen = true)
    (hnew : newData ≠ []) :
    updatePlot maxPoints s newData
      = drain maxPoints { s with serialData := appendData s.serialData newData } := by
  obtain ⟨h1, h2, h3⟩ := hact
  have h4 : newData.isEmpty = false := by
    cases newData with
    | nil => exact absurd rfl hnew
    | cons _ _ => rfl
  simp [updatePlot, h1, h2, h3, h4]

theorem getD_length_of_forall (pd : List (List Int)) (m c : Nat) (hc : c < pd.length)
    (h : ∀ a ∈ pd, a.length = m) : (pd.getD c []).length = m := by
  apply h
  rw [List.getD_eq_getElem?_getD, List.getElem?_eq_getElem hc]
  simp

theorem batchSize_lt (b : List Byte) (h : (split NL b).length > 1) :
    batchSize b < (split NL b).length := by
  unfold batchSize
  omega

theorem batchSize_pos (b : List Byte) (h : (split NL b).length > 1) :
    1 ≤ batchSize b ∧ batchSize b ≤ 10 := by
  unfold batchSize
  omega

theorem map_lineSlot_of_decoded (lines : List (List Byte)) (recs : List (List Int))
    (k c : Nat) (old : Nat → Int) (hc : c < CHANNELS) (hk : k ≤ lines.length)
    (hwf : (lines.take k).map decodeLine = recs.map some) :
    (List.range k).map (fun l => lineSlot (lines.getD l []) c (old l))
      = recs.map (fun r => r.getD c 0) := by
  have hlen : recs.length = k := by
    have := congrArg List.length hwf
    simp at this
    omega
  apply List.ext_getElem?
  intro i
  by_cases hi : i < k
  · have hi2 : i < lines.length := by omega
    have h1 := congrArg (fun x => x[i]?) hwf
    simp only [List.getElem?_map, List.getElem?_take, hi, if_true,
      List.getElem?_eq_getElem hi2, Option.map_some'] at h1
    have hi3 : i < recs.length := by omega
    rw [List.getElem?_eq_getElem hi3] at h1
    simp only [Option.map_some', Option.some.injEq] at h1
    simp only [List.getElem?_map, List.getElem?_range hi, Option.map_some',
      List.getElem?_eq_getElem hi3]
    congr 1
    have h2 : lines.getD i [] = lines[i] := by
      rw [List.getD_eq_getElem?_getD, List.getElem?_eq_getElem hi2]; rfl
    rw [h2]
    exact lineSlot_of_decodeLine _ _ c _ h1 hc
  · have h1 : (List.range k).length ≤ i := by simp; omega
    have h2 : recs.length ≤ i := by omega
    simp [List.getElem?_eq_none, h1, h2]
    omega

/-- The series a poll leaves when every line of its batch passes every check. -/
theorem updatePlot_series_of_decoded (maxPoints : Nat) (s : MainWindow) (newData : List Byte)
    (recs : List (List Int))
    (hact : s.isAcquiring = true ∧ s.isPaused = false ∧ s.portOpen = true)
    (hnew : newData ≠ [])
    (hpd : s.plotData.length = CHANNELS)
    (hlen : ∀ a ∈ s.plotData, a.length = maxPoints)
    (hlines : (split NL (appendData s.serialData newData)).length > 1)
    (hk : batchSize (appendData s.serialData newData) ≤ maxPoints)
    (hwf : ((split NL (appendData s.serialData newData)).take
        (batchSize (appendData s.serialData newData))).map decodeLine = recs.map some) :
    recs.length = batchSize (appendData s.serialData newData)
    ∧ 1 ≤ recs.length ∧ recs.length ≤ min 10 maxPoints
    ∧ ∀ c, c < CHANNELS →
      (updatePlot maxPoints s newData).plotData.getD c []
          = (s.plotData.getD c []).drop recs.length ++ recs.map (fun r => r.getD c 0)
        ∧ ((updatePlot maxPoints s newData).plotData.getD c []).length = maxPoints := by
  have hb := batchSize_lt _ hlines
  have hb2 := batchSize_pos _ hlines
  have hrl : recs.length = batchSize (appendData s.serialData newData) := by
    have := congrArg List.length hwf
    simp at this
    omega
  refine ⟨hrl, by omega, by omega, ?_⟩
  intro c hc
  have hcp : c < s.plotData.length := by omega
  have ha := getD_length_of_forall s.plotData maxPoints c hcp hlen
  have hser : (updatePlot maxPoints s newData).plotData.getD c []
      = (s.plotData.getD c []).drop recs.length ++ recs.map (fun r => r.getD c 0) := by
    rw [updatePlot_active maxPoints s newData hact hnew,
      drain_series maxPoints { s with serialData := appendData s.serialData newData } c
        hlines hk hc hcp ha]
    simp only
    rw [map_lineSlot_of_decoded _ recs _ c _ hc (by omega) hwf, hrl]
  refine ⟨hser, ?_⟩
  rw [hser, List.length_append, List.length_drop, List.length_map, ha]
  omega

/-- C1. Shift-and-append: a poll whose batch consists of `k` well-formed lines, decoding to
the records `recs`, leaves in every channel `c` the prior series without its first `k`
samples followed by the `c`-th fields of the records in arrival order; the series keeps
its length, so the fields fill the slots `maxPoints - k .. maxPoints - 1` and the slots
below hold the prior slots `k .. maxPoints - 1`. -/
theorem C1_shift_and_append (maxPoints : Nat) (s : MainWindow) (newData : List Byte)
    (recs : List (List Int))
    (hact : s.isAcquiring = true ∧ s.isPaused = false ∧ s.portOpen = true)
    (hnew : newData ≠ [])
    (hpd : s.plotData.length = CHANNELS)
    (hlen : ∀ a ∈ s.plotData, a.length = maxPoints)
    (hlines : (split NL (appendData s.serialData newData)).length > 1)
    (hk : batchSize (appendData s.serialData newData) ≤ maxPoints)
    (hwf : ((split NL (appendData s.serialData newData)).take
        (batchSize (appendData s.serialData newData))).map decodeLine = recs.map some) :
    recs.length = batchSize (appendData s.serialData newData)
    ∧ 1 ≤ recs.length ∧ recs.length ≤ min 10 maxPoints
    ∧ ∀ c, c < CHANNELS →
      (updatePlot maxPoints s newData).plotData.getD c []
          = (s.plotData.getD c []).drop recs.length ++ recs.map (fun r => r.getD c 0)
        ∧ ((updatePlot maxPoints s newData).plotData.getD c []).length = maxPoints :=
  updatePlot_series_of_decoded maxPoints s newData recs hact hnew hpd hlen hlines hk hwf

/-- C1, the scenario: depth 5, all zeros, three records with channel-0 values 10, 20, 30
give the channel-0 series `[0, 0, 10, 20, 30]`. -/
theorem C1_shift_and_append_witness :
    (updatePlot 5 ⟨true, false, true, [], initPlotData 5⟩
      [49, 48, 9, 48, 9, 48, 9, 48, 10, 50, 48, 9, 48, 9, 48, 9, 48, 10,
        51, 48, 9, 48, 9, 48, 9, 48, 10]).plotData.getD 0 [] = [0, 0, 10, 20, 30] :=
  ((C1_shift_and_append 5 ⟨true, false, true, [], initPlotData 5⟩
      [49, 48, 9, 48, 9, 48, 9, 48, 10, 50, 48, 9, 48, 9, 48, 9, 48, 10,
        51, 48, 9, 48, 9, 48, 9, 48, 10]
      [[10, 0, 0, 0], [20, 0, 0, 0], [30, 0, 0, 0]]
      (by decide) (by decide) (by decide) (by decide) (by decide) (by decide)
      (by decide)).2.2.2 0 (by decide)).1.trans (by decide)

theorem drain_of_no_newline (maxPoints : Nat) (s : MainWindow) (h : NL ∉ s.serialData) :
    drain maxPoints s = s := by
  unfold drain
  simp only
  rw [if_neg ((split_length_le_one_iff NL s.serialData).mpr h)]

theorem decodedRecords_of_no_newline (b : List Byte) (h : NL ∉ b) : decodedRecords b = [] := by
  unfold decodedRecords
  simp only
  rw [if_neg ((split_length_le_one_iff NL b).mpr h)]

/-- C9. No complete line, no mutation: a drain of a buffer without a newline byte decodes
no record and returns the state it was given, so the raw buffer (the partial line) and
every channel series are unchanged. -/
theorem C9_no_complete_line_no_mutation (maxPoints : Nat) (s : MainWindow)
    (h : NL ∉ s.serialData) :
    drain maxPoints s = s
    ∧ decodedRecords s.serialData = []
    ∧ (drain maxPoints s).serialData = s.serialData
    ∧ (drain maxPoints s).plotData = s.plotData := by
  rw [drain_of_no_newline maxPoints s h]
  exact ⟨rfl, decodedRecords_of_no_newline _ h, rfl, rfl⟩

/-- C9 at the partial line `12<TAB>3` over a depth-5 history. -/
theorem C9_no_complete_line_no_mutation_witness :
    drain 5 ⟨true, false, true, [49, 50, 9, 51], [[1, 2, 3, 4, 5], [0, 0, 0, 0, 0],
        [0, 0, 0, 0, 0], [0, 0, 0, 0, 0]]⟩
      = ⟨true, false, true, [49, 50, 9, 51], [[1, 2, 3, 4, 5], [0, 0, 0, 0, 0],
        [0, 0, 0, 0, 0], [0, 0, 0, 0, 0]]⟩ :=
  (C9_no_complete_line_no_mutation 5 ⟨true, false, true, [49, 50, 9, 51],
    [[1, 2, 3, 4, 5], [0, 0, 0, 0, 0], [0, 0, 0, 0, 0], [0, 0, 0, 0, 0]]⟩ (by decide)).1

theorem appendData_length_le (buf chunk : List Byte) :
    (appendData buf chunk).length ≤ 100000 := by
  unfold appendData right
  simp only
  split
  · rw [List.length_drop]; omega
  · omega

theorem drain_serialData_length_le (maxPoints : Nat) (s : MainWindow) :
    (drain maxPoints s).serialData.length ≤ s.serialData.length := by
  unfold drain
  simp only
  split
  · rename_i h
    have hk : min 10 ((split NL s.serialData).length - 1) < (split NL s.serialData).length := by
      omega
    have e := congrArg List.length (buffer_eq_unlines_append s.serialData _ hk)
    rw [List.length_append] at e
    simp only
    omega
  · exact Nat.le_refl _

theorem initPlotData_length (maxPoints : Nat) : (initPlotData maxPoints).length = CHANNELS := by
  simp [initPlotData]

theorem initPlotData_getD (maxPoints c : Nat) (hc : c < CHANNELS) :
    (initPlotData maxPoints).getD c [] = List.replicate maxPoints 0 := by
  unfold initPlotData
  rw [List.getD_eq_getElem?_getD, List.getElem?_replicate]
  simp [hc]

/-- The last slot of channel `c` after a poll that reads exactly one complete line `raw`
(and its newline) into an empty buffer over an all-zero history. -/
theorem lastSlot_single_line (maxPoints : Nat) (raw : List Byte) (c : Nat)
    (hm : 1 ≤ maxPoints) (hc : c < CHANNELS)
    (hnl : NL ∉ raw) (hlen : (raw ++ [NL]).length ≤ 100000) :
    ((updatePlot maxPoints ⟨true, false, true, [], initPlotData maxPoints⟩
        (raw ++ [NL])).plotData.getD c []).getD (maxPoints - 1) 0 = lineSlot raw c 0 := by
  have happ : appendData [] (raw ++ [NL]) = raw ++ [NL] := by
    unfold appendData
    simp only [List.nil_append]
    rw [if_neg (by omega)]
  have hsplit : split NL (raw ++ [NL]) = [raw, []] := by
    rw [split_append_sep NL raw [] hnl]
    rfl
  have hb : batchSize (raw ++ [NL]) = 1 := by
    unfold batchSize
    rw [hsplit]
    rfl
  rw [updatePlot_active _ _ _ ⟨rfl, rfl, rfl⟩ (by simp)]
  simp only [happ]
  rw [drain_series maxPoints ⟨true, false, true, raw ++ [NL], initPlotData maxPoints⟩ c
    (by simp only [hsplit, List.length_cons, List.length_nil]; omega)
    (by simp only [hb]; exact hm) hc
    (by simp only [initPlotData_length]; exact hc)
    (by simp only [initPlotData_getD _ c hc, List.length_replicate])]
  simp only [hb, hsplit, initPlotData_getD _ c hc]
  rw [List.getD_eq_getElem?_getD, List.getElem?_append_right (by simp)]
  simp

/-- C3, refuted as stated: the line `1<TAB>x<TAB>3<TAB>4` has a field that does not
convert, yet the poll stores its other three fields: over an all-zero history the newest
slot of the channels 0, 2 and 3 holds 1, 3 and 4 afterwards, and only channel 1 keeps
its 0. -/
theorem C3_counterexample :
    (toInt [120]).2 = false
    ∧ ((updatePlot MAX_PLOT_POINTS ⟨true, false, true, [], initPlotData MAX_PLOT_POINTS⟩
        [49, 9, 120, 9, 51, 9, 52, 10]).plotData.getD 0 []).getD 999 0 = 1
    ∧ ((updatePlot MAX_PLOT_POINTS ⟨true, false, true, [], initPlotData MAX_PLOT_POINTS⟩
        [49, 9, 120, 9, 51, 9, 52, 10]).plotData.getD 1 []).getD 999 0 = 0
    ∧ ((updatePlot MAX_PLOT_POINTS ⟨true, false, true, [], initPlotData MAX_PLOT_POINTS⟩
        [49, 9, 120, 9, 51, 9, 52, 10]).plotData.getD 2 []).getD 999 0 = 3
    ∧ ((updatePlot MAX_PLOT_POINTS ⟨true, false, true, [], initPlotData MAX_PLOT_POINTS⟩
        [49, 9, 120, 9, 51, 9, 52, 10]).plotData.getD 3 []).getD 999 0 = 4 :=
  ⟨by decide,
    (lastSlot_single_line MAX_PLOT_POINTS [49, 9, 120, 9, 51, 9, 52] 0
      (by decide) (by decide) (by decide) (by decide)).trans (by decide),
    (lastSlot_single_line MAX_PLOT_POINTS [49, 9, 120, 9, 51, 9, 52] 1
      (by decide) (by decide) (by decide) (by decide)).trans (by decide),
    (lastSlot_single_line MAX_PLOT_POINTS [49, 9, 120, 9, 51, 9, 52] 2
      (by decide) (by decide) (by decide) (by decide)).trans (by decide),
    (lastSlot_single_line MAX_PLOT_POINTS [49, 9, 120, 9, 51, 9, 52] 3
      (by decide) (by decide) (by decide) (by decide)).trans (by decide)⟩

theorem writeLine_of_skip (maxPoints batchSize l : Nat) (raw : List Byte)
    (pd : List (List Int))
    (h : (trimmed raw).isEmpty = true ∨ (split TAB (trimmed raw)).length ≠ CHANNELS) :
    writeLine maxPoints batchSize l raw pd = pd := by
  unfold writeLine
  simp only
  by_cases h1 : (trimmed raw).isEmpty = true
  · simp [h1]
  · rcases h with h | h
    · exact absurd h h1
    · simp [h1, h]

/-- C3, amended. A consumed line that is empty after trimming, or whose field count after
trimming is not `CHANNELS`, writes no field to any channel. A line with `CHANNELS` fields
is applied field by field: the channel of a field that converts receives its value in the
slot of the line, the channel of a field that does not convert keeps its series. -/
theorem C3_per_field_decoding (maxPoints batchSize l : Nat) (raw : List Byte)
    (pd : List (List Int)) :
    (((trimmed raw).isEmpty = true ∨ (split TAB (trimmed raw)).length ≠ CHANNELS) →
        writeLine maxPoints batchSize l raw pd = pd)
    ∧ ((trimmed raw).isEmpty = false → (split TAB (trimmed raw)).length = CHANNELS →
        batchSize ≤ maxPoints + l →
        ∀ c, c < CHANNELS → c < pd.length →
          (writeLine maxPoints batchSize l raw pd).getD c []
            = if (toInt ((split TAB (trimmed raw)).getD c [])).2 = true then
                (pd.getD c []).set (maxPoints + l - batchSize)
                  (toInt ((split TAB (trimmed raw)).getD c [])).1
              else pd.getD c []) := by
  refine ⟨writeLine_of_skip maxPoints batchSize l raw pd, ?_⟩
  intro h1 h2 hb c hc hcp
  rw [writeLine_getD maxPoints batchSize l raw pd c hc hcp hb]
  unfold lineSlot
  simp only [h1, h2, if_true, Bool.false_eq_true, if_false]
  by_cases h3 : (toInt ((split TAB (trimmed raw)).getD c [])).2 = true
  · simp only [h3, if_true]
  · have h4 : (toInt ((split TAB (trimmed raw)).getD c [])).2 = false := by
      simpa using h3
    simp only [h4, Bool.false_eq_true, if_false, set_getD_self_int]

/-- C3 amended, on a depth-5 history: the line `1<TAB>2<TAB>3` (three fields) writes
nothing, and in the line `1<TAB>x<TAB>3<TAB>4` channel 0 receives 1 while channel 1 keeps
its series. -/
theorem C3_per_field_decoding_witness :
    writeLine 5 1 0 [49, 9, 50, 9, 51] (initPlotData 5) = initPlotData 5
    ∧ (writeLine 5 1 0 [49, 9, 120, 9, 51, 9, 52] (initPlotData 5)).getD 0 [] = [0, 0, 0, 0, 1]
    ∧ (writeLine 5 1 0 [49, 9, 120, 9, 51, 9, 52] (initPlotData 5)).getD 1 [] = [0, 0, 0, 0, 0] :=
  ⟨(C3_per_field_decoding 5 1 0 [49, 9, 50, 9, 51] (initPlotData 5)).1 (by decide),
    ((C3_per_field_decoding 5 1 0 [49, 9, 120, 9, 51, 9, 52] (initPlotData 5)).2
      (by decide) (by decide) (by decide) 0 (by decide) (by decide)).trans (by decide),
    ((C3_per_field_decoding 5 1 0 [49, 9, 120, 9, 51, 9, 52] (initPlotData 5)).2
      (by decide) (by decide) (by decide) 1 (by decide) (by decide)).trans (by decide)⟩

theorem decodedRecords_length_le (b : List Byte) :
    (decodedRecords b).length ≤ batchSize b := by
  unfold decodedRecords batchSize
  simp only
  split
  · refine Nat.le_trans (List.length_filterMap_le _ _) ?_
    rw [List.length_take]
    omega
  · simp

/-- The poll of a single newline into an empty buffer, over series `5 :: 0 :: ... :: 0`:
the line is empty, and the oldest slot of channel 0 holds 0 afterwards. -/
theorem oldestSlot_single_empty_line (n : Nat) (hn : 1 ≤ n) :
    ((updatePlot (n + 1)
        ⟨true, false, true, [], List.replicate CHANNELS (5 :: List.replicate n 0)⟩
        [NL]).plotData.getD 0 []).getD 0 0 = 0 := by
  have hg : (List.replicate CHANNELS ((5 : Int) :: List.replicate n 0)).getD 0 []
      = 5 :: List.replicate n 0 := rfl
  rw [updatePlot_active _ _ _ ⟨rfl, rfl, rfl⟩ (by simp)]
  have happ : appendData [] [NL] = [NL] := by decide
  have hb : batchSize [NL] = 1 := by decide
  have hl : (split NL [NL]).length > 1 := by decide
  simp only [happ]
  rw [drain_series (n + 1)
    ⟨true, false, true, [NL], List.replicate CHANNELS (5 :: List.replicate n 0)⟩ 0
    hl (by simp only [hb]; omega) (by decide)
    (by simp [CHANNELS]) (by simp only [hg]; simp)]
  simp only [hb, hg, List.drop_succ_cons, List.drop_zero]
  cases n with
  | zero => omega
  | succ m => simp [List.replicate_succ]

/-- C10, refuted as stated: a poll that reads the single byte newline consumes one empty
line and decodes no record, so the series should stay as they are; yet channel 0, whose
oldest slot held 5, holds 0 there afterwards: the series was shifted by the one line
consumed. -/
theorem C10_counterexample :
    decodedRecords (appendData [] [10]) = []
    ∧ ((List.replicate CHANNELS ((5 : Int) :: List.replicate 999 0)).getD 0 []).getD 0 0 = 5
    ∧ ((updatePlot MAX_PLOT_POINTS
        ⟨true, false, true, [], List.replicate CHANNELS (5 :: List.replicate 999 0)⟩
        [10]).plotData.getD 0 []).getD 0 0 = 0 :=
  ⟨by decide, rfl, oldestSlot_single_empty_line 999 (by decide)⟩

/-- C10, amended. A poll that takes a batch shifts every channel series left by exactly
`batchSize = min(10, number of complete lines)`, the number of lines consumed: the slots
`0 .. maxPoints - batchSize - 1` hold the prior slots `batchSize .. maxPoints - 1`. The
number of records decoded is at most `batchSize`. When every consumed line is empty after
trimming or has a field count other than `CHANNELS`, the series is the prior one shifted
by `batchSize` with its last `batchSize` slots kept. -/
theorem C10_shift_by_batchSize (maxPoints : Nat) (s : MainWindow) (newData : List Byte)
    (hact : s.isAcquiring = true ∧ s.isPaused = false ∧ s.portOpen = true)
    (hnew : newData ≠ [])
    (hpd : s.plotData.length = CHANNELS)
    (hlen : ∀ a ∈ s.plotData, a.length = maxPoints)
    (hlines : (split NL (appendData s.serialData newData)).length > 1)
    (hk : batchSize (appendData s.serialData newData) ≤ maxPoints) :
    (decodedRecords (appendData s.serialData newData)).length
        ≤ batchSize (appendData s.serialData newData)
    ∧ ∀ c, c < CHANNELS →
      (∀ j, j < maxPoints - batchSize (appendData s.serialData newData) →
        ((updatePlot maxPoints s newData).plotData.getD c []).getD j 0
          = (s.plotData.getD c []).getD (j + batchSize (appendData s.serialData newData)) 0)
      ∧ ((∀ l, l < batchSize (appendData s.serialData newData) →
            (trimmed ((split NL (appendData s.serialData newData)).getD l [])).isEmpty = true
            ∨ (split TAB (trimmed ((split NL (appendData s.serialData newData)).getD l []))).length
                ≠ CHANNELS) →
          (updatePlot maxPoints s newData).plotData.getD c []
            = (s.plotData.getD c []).drop (batchSize (appendData s.serialData newData))
              ++ (s.plotData.getD c []).drop
                  (maxPoints - batchSize (appendData s.serialData newData))) := by
  refine ⟨decodedRecords_length_le _, ?_⟩
  intro c hc
  have hcp : c < s.plotData.length := by omega
  have ha := getD_length_of_forall s.plotData maxPoints c hcp hlen
  have hser := drain_series maxPoints { s with serialData := appendData s.serialData newData } c
    hlines hk hc hcp ha
  simp only at hser
  rw [updatePlot_active maxPoints s newData hact hnew, hser]
  generalize batchSize (appendData s.serialData newData) = b at hk ⊢
  generalize s.plotData.getD c [] = a at ha ⊢
  constructor
  · intro j hj
    simp only [List.getD_eq_getElem?_getD]
    rw [List.getElem?_append_left (by rw [List.length_drop]; omega), List.getElem?_drop,
      Nat.add_comm]
  · intro hall
    congr 1
    apply List.ext_getElem?
    intro i
    by_cases hi : i < b
    · have h1 : lineSlot ((split NL (appendData s.serialData newData)).getD i []) c
          (a.getD (maxPoints - b + i) 0) = a.getD (maxPoints - b + i) 0 := by
        rcases hall i hi with h | h
        · exact lineSlot_of_empty _ _ _ h
        · exact lineSlot_of_count _ _ _ h
      have h2 : maxPoints - b + i < a.length := by omega
      simp only [List.getElem?_map, List.getElem?_range hi, Option.map_some',
        List.getElem?_drop]
      rw [h1, List.getD_eq_getElem?_getD, List.getElem?_eq_getElem h2]
      rfl
    · have h1 : (List.range b).length ≤ i := by simp; omega
      have h2 : (List.drop (maxPoints - b) a).length ≤ i := by
        rw [List.length_drop]; omega
      rw [List.getElem?_eq_none (by simpa using h1), List.getElem?_eq_none h2]

/-- C10 amended, on a depth-5 history: the poll of a single newline (one empty line, no
record) turns the channel-0 series `[1, 2, 3, 4, 5]` into `[2, 3, 4, 5, 5]`. -/
theorem C10_shift_by_batchSize_witness :
    (updatePlot 5 ⟨true, false, true, [], [[1, 2, 3, 4, 5], [0, 0, 0, 0, 0],
        [0, 0, 0, 0, 0], [0, 0, 0, 0, 0]]⟩ [10]).plotData.getD 0 [] = [2, 3, 4, 5, 5] :=
  (((C10_shift_by_batchSize 5 ⟨true, false, true, [], [[1, 2, 3, 4, 5], [0, 0, 0, 0, 0],
        [0, 0, 0, 0, 0], [0, 0, 0, 0, 0]]⟩ [10]
      (by decide) (by decide) (by decide) (by decide) (by decide) (by decide)).2
        0 (by decide)).2 (by decide)).trans (by decide)

theorem filterMap_ite_eq_map_filter {β : Type} (l : List Nat) (p : Nat → Bool) (f : Nat → β) :
    l.filterMap (fun i => if p i = true then some (f i) else none) = (l.filter p).map f := by
  induction l with
  | nil => rfl
  | cons x xs ih =>
    by_cases h : p x = true
    · simp [List.filterMap_cons, List.filter_cons, h, ih]
    · simp [List.filterMap_cons, List.filter_cons, h, ih]

theorem mid_of_le {α : Type} (v : List α) (m l : Nat) :
    mid v ((m : Int) - (l : Int)) = if m < l then v else v.drop (m - l) := by
  unfold mid
  by_cases h : m < l
  · have : (m : Int) - (l : Int) < 0 := by omega
    simp [h, this]
  · have : ¬ ((m : Int) - (l : Int) < 0) := by omega
    simp only [h, this, if_false, Int.toNat_sub]

/-- The view of a history of `CHANNELS` series of length `maxPoints`, for a window length
`L ≤ maxPoints` with `0 < maxPoints`. -/
theorem updatePlotData_view (maxPoints : Nat) (s : MainWindow) (checked : List Bool) (L : Nat)
    (hM : 0 < maxPoints) (hL : L ≤ maxPoints)
    (hpd : s.plotData.length = CHANNELS) (hlen : ∀ a ∈ s.plotData, a.length = maxPoints) :
    MainWindow.updatePlotData maxPoints s false checked (L : Int)
      = PlotUpdate.setData (((List.range CHANNELS).filter (fun c => checked.getD c false)).map
          (fun c => ⟨c, (xData maxPoints).drop (maxPoints - L),
            (s.plotData.getD c []).drop (maxPoints - L)⟩)) := by
  unfold MainWindow.updatePlotData PlotManager.updatePlotData
  have hany : s.plotData.any (fun channel => !channel.isEmpty) = true := by
    rw [List.any_eq_true]
    have h0 : 0 < s.plotData.length := by rw [hpd]; decide
    refine ⟨s.plotData[0], List.getElem_mem _, ?_⟩
    have := hlen _ (List.getElem_mem h0)
    cases hx : s.plotData[0] with
    | nil => rw [hx] at this; simp at this; omega
    | cons _ _ => rfl
  have hnl : ¬ maxPoints < L := by omega
  simp only [Bool.false_eq_true, if_false, hany, if_true, mid_of_le, hnl]
  congr 1
  rw [← filterMap_ite_eq_map_filter]
  apply List.filterMap_congr
  intro i hi
  have hi2 : i < CHANNELS := List.mem_range.mp hi
  have hv : ((List.range CHANNELS).map (fun i => checked.getD i false)).getD i false
      = checked.getD i false := by
    rw [List.getD_eq_getElem?_getD, List.getElem?_map, List.getElem?_range hi2]
    rfl
  rw [hv]

/-- C5. Window selection: for a window length `L` in `[10, maxPoints]` and a history whose
series all have length `maxPoints`, the view handed to the plot consists of exactly one
entry per channel whose button is checked, in channel order, each holding the last `L`
samples of that channel's series (and the last `L` abscissae); every such vector has
length exactly `L`; a channel whose button is not checked has no entry. (No axis is
selected: `setupPlot` enables range drag and zoom only, so the test of line 95 never
succeeds in this program.) -/
theorem C5_window_selection (maxPoints : Nat) (s : MainWindow) (checked : List Bool) (L : Nat)
    (hL1 : 10 ≤ L) (hL2 : L ≤ maxPoints)
    (hpd : s.plotData.length = CHANNELS) (hlen : ∀ a ∈ s.plotData, a.length = maxPoints) :
    MainWindow.updatePlotData maxPoints s false checked (L : Int)
      = PlotUpdate.setData (((List.range CHANNELS).filter (fun c => checked.getD c false)).map
          (fun c => ⟨c, (xData maxPoints).drop ((xData maxPoints).length - L),
            (s.plotData.getD c []).drop ((s.plotData.getD c []).length - L)⟩))
    ∧ (∀ c, c < CHANNELS →
        ((s.plotData.getD c []).drop ((s.plotData.getD c []).length - L)).length = L)
    ∧ ((xData maxPoints).drop ((xData maxPoints).length - L)).length = L := by
  have hx : (xData maxPoints).length = maxPoints := by simp [xData]
  have hc : ∀ c, c < CHANNELS → (s.plotData.getD c []).length = maxPoints := fun c hc =>
    getD_length_of_forall s.plotData maxPoints c (by omega) hlen
  refine ⟨?_, ?_, ?_⟩
  · rw [updatePlotData_view maxPoints s checked L (by omega) hL2 hpd hlen, hx]
    congr 1
    apply List.map_congr_left
    intro c hcm
    rw [hc c (List.mem_range.mp (List.mem_filter.mp hcm).1)]
  · intro c hcc
    rw [List.length_drop, hc c hcc]
    omega
  · rw [List.length_drop, hx]
    omega

/-- C5 at depth 12 and window length 10, channels 0 and 2 checked: two entries, each the
last 10 samples. -/
theorem C5_window_selection_witness :
    MainWindow.updatePlotData 12
        ⟨true, false, true, [], [[1, 2, 3, 4, 5, 6, 7, 8, 9, 10, 11, 12],
          [0, 0, 0, 0, 0, 0, 0, 0, 0, 0, 0, 0], [0, 0, 0, 0, 0, 0, 0, 0, 0, 0, 0, 7],
          [0, 0, 0, 0, 0, 0, 0, 0, 0, 0, 0, 0]]⟩ false [true, false, true, false] 10
      = PlotUpdate.setData
          [⟨0, [2, 3, 4, 5, 6, 7, 8, 9, 10, 11], [3, 4, 5, 6, 7, 8, 9, 10, 11, 12]⟩,
            ⟨2, [2, 3, 4, 5, 6, 7, 8, 9, 10, 11], [0, 0, 0, 0, 0, 0, 0, 0, 0, 7]⟩] :=
  (C5_window_selection 12
      ⟨true, false, true, [], [[1, 2, 3, 4, 5, 6, 7, 8, 9, 10, 11, 12],
        [0, 0, 0, 0, 0, 0, 0, 0, 0, 0, 0, 0], [0, 0, 0, 0, 0, 0, 0, 0, 0, 0, 0, 7],
        [0, 0, 0, 0, 0, 0, 0, 0, 0, 0, 0, 0]]⟩ [true, false, true, false] 10
      (by decide) (by decide) (by decide) (by decide)).1.trans (by decide)

theorem clearPlot_plotData (maxPoints : Nat) (pd : List (List Int))
    (hpd : pd.length = CHANNELS) :
    (List.range CHANNELS).foldl (fun pd i => pd.set i (List.replicate maxPoints 0)) pd
      = initPlotData maxPoints := by
  have hlen := foldl_range_set_length (fun _ _ => List.replicate maxPoints 0) CHANNELS pd
  simp only at hlen
  apply List.ext_getElem?
  intro c
  by_cases hc : c < CHANNELS
  · have h := foldl_range_set_getD (fun _ _ => List.replicate maxPoints 0) CHANNELS pd c
      (by omega)
    simp only [hc, if_true, List.getD_eq_getElem?_getD] at h
    have h1 : c < ((List.range CHANNELS).foldl
        (fun pd i => pd.set i (List.replicate maxPoints 0)) pd).length := by omega
    rw [List.getElem?_eq_getElem h1] at h ⊢
    simp only [Option.getD_some] at h
    rw [h]
    unfold initPlotData
    rw [List.getElem?_replicate]
    simp [hc]
  · rw [List.getElem?_eq_none (by omega),
      List.getElem?_eq_none (by rw [initPlotData_length]; omega)]

/-- C6. Clear then window: whatever the channels held, `clearPlot` leaves `CHANNELS`
series of `maxPoints` zeros, and the view it hands to the plot for a window length `L` in
`[10, maxPoints]` holds, for every channel whose button is checked, exactly `L` zeros
(and no entry for the other channels). (No axis is selected, as in C5.) -/
theorem C6_clear_then_window (maxPoints : Nat) (s : MainWindow) (checked : List Bool)
    (L : Nat) (hL1 : 10 ≤ L) (hL2 : L ≤ maxPoints) (hpd : s.plotData.length = CHANNELS) :
    (MainWindow.clearPlot maxPoints s false checked (L : Int)).1.plotData
        = initPlotData maxPoints
    ∧ (MainWindow.clearPlot maxPoints s false checked (L : Int)).2
        = PlotUpdate.setData
            (((List.range CHANNELS).filter (fun c => checked.getD c false)).map
              (fun c => ⟨c, (xData maxPoints).drop (maxPoints - L), List.replicate L 0⟩)) := by
  unfold MainWindow.clearPlot
  simp only [clearPlot_plotData maxPoints s.plotData hpd]
  refine ⟨trivial, ?_⟩
  rw [updatePlotData_view maxPoints _ checked L (by omega) hL2
    (by simp only [initPlotData_length])
    (by
      intro a ha
      unfold initPlotData at ha
      rw [List.eq_of_mem_replicate ha, List.length_replicate])]
  congr 1
  apply List.map_congr_left
  intro c hcm
  have hc : c < CHANNELS := List.mem_range.mp (List.mem_filter.mp hcm).1
  simp only [initPlotData_getD maxPoints c hc, List.drop_replicate]
  congr 2
  omega

/-- C6 at depth 12 and window length 10 with channels 0 and 3 checked: both entries are
ten zeros. -/
theorem C6_clear_then_window_witness :
    (MainWindow.clearPlot 12
        ⟨true, false, true, [49], [[1, 2, 3, 4, 5, 6, 7, 8, 9, 10, 11, 12], [5], [], [7, 7]]⟩
        false [true, false, false, true] 10).2
      = PlotUpdate.setData
          [⟨0, [2, 3, 4, 5, 6, 7, 8, 9, 10, 11], [0, 0, 0, 0, 0, 0, 0, 0, 0, 0]⟩,
            ⟨3, [2, 3, 4, 5, 6, 7, 8, 9, 10, 11], [0, 0, 0, 0, 0, 0, 0, 0, 0, 0]⟩] :=
  (C6_clear_then_window 12
      ⟨true, false, true, [49], [[1, 2, 3, 4, 5, 6, 7, 8, 9, 10, 11, 12], [5], [], [7, 7]]⟩
      [true, false, false, true] 10 (by decide) (by decide) (by decide)).2.trans (by decide)

theorem plainField_renderInt (v : Int) : PlainField (renderInt v) := by
  obtain ⟨h1, h2, _⟩ := renderNat_spec v.natAbs
  unfold renderInt PlainField
  by_cases hneg : v < 0
  · simp only [hneg, if_true]
    refine ⟨by simp, ?_⟩
    intro x hx
    rcases List.mem_cons.mp hx with e | e
    · subst e; decide
    · exact isSpace_of_isDigit x (h2 x e)
  · simp only [hneg, if_false]
    exact ⟨h1, fun x hx => isSpace_of_isDigit x (h2 x hx)⟩

theorem renderInt_length (v : Int) (hv : InIntRange v) : (renderInt v).length ≤ 11 := by
  unfold InIntRange INT_MIN INT_MAX at hv
  have h : (renderNat v.natAbs).length ≤ 10 := by
    unfold renderNat
    apply digitsFuel_length _ _ 9
    have : v.natAbs ≤ 2147483648 := by omega
    omega
  unfold renderInt
  split
  · simp only [List.length_cons]; omega
  · omega

theorem isSpace_NL : isSpace NL = true := by decide

theorem wellFormed_cases (r : List Int) (h : WellFormedRecord r) :
    ∃ v0 v1 v2 v3, r = [v0, v1, v2, v3]
      ∧ InIntRange v0 ∧ InIntRange v1 ∧ InIntRange v2 ∧ InIntRange v3 := by
  obtain ⟨hl, hv⟩ := h
  match r, hl, hv with
  | [v0, v1, v2, v3], _, hv =>
    exact ⟨v0, v1, v2, v3, rfl, hv v0 (by simp), hv v1 (by simp), hv v2 (by simp),
      hv v3 (by simp)⟩

theorem decodeLine_renderRecord (r : List Int) (h : WellFormedRecord r) :
    decodeLine (renderRecord r) = some r := by
  obtain ⟨v0, v1, v2, v3, rfl, h0, h1, h2, h3⟩ := wellFormed_cases r h
  exact decodeLine_fields _ _ _ _ v0 v1 v2 v3 (plainField_renderInt v0)
    (plainField_renderInt v1) (plainField_renderInt v2) (plainField_renderInt v3)
    (toInt_renderInt v0 h0) (toInt_renderInt v1 h1) (toInt_renderInt v2 h2)
    (toInt_renderInt v3 h3)

theorem not_mem_renderRecord (r : List Int) (h : WellFormedRecord r) :
    NL ∉ renderRecord r := by
  obtain ⟨v0, v1, v2, v3, rfl, _⟩ := wellFormed_cases r h
  have hp : ∀ v : Int, NL ∉ renderInt v := fun v hm => by
    have := (plainField_renderInt v).2 _ hm
    rw [isSpace_NL] at this
    exact absurd this (by decide)
  have hj : renderRecord [v0, v1, v2, v3]
      = renderInt v0 ++ TAB :: (renderInt v1 ++ TAB :: (renderInt v2 ++ TAB :: renderInt v3)) :=
    rfl
  rw [hj]
  have hne : NL ≠ TAB := by decide
  simp only [List.mem_append, List.mem_cons, not_or]
  exact ⟨hp v0, hne, hp v1, hne, hp v2, hne, hp v3⟩

theorem renderRecord_length (r : List Int) (h : WellFormedRecord r) :
    (renderRecord r).length ≤ 47 := by
  obtain ⟨v0, v1, v2, v3, rfl, h0, h1, h2, h3⟩ := wellFormed_cases r h
  have hj : renderRecord [v0, v1, v2, v3]
      = renderInt v0 ++ TAB :: (renderInt v1 ++ TAB :: (renderInt v2 ++ TAB :: renderInt v3)) :=
    rfl
  rw [hj]
  have := renderInt_length v0 h0
  have := renderInt_length v1 h1
  have := renderInt_length v2 h2
  have := renderInt_length v3 h3
  simp only [List.length_append, List.length_cons]
  omega

theorem unlines_length_le (sep : Byte) (ls : List (List Byte)) (m : Nat)
    (h : ∀ l ∈ ls, l.length ≤ m) : (unlines sep ls).length ≤ ls.length * (m + 1) := by
  induction ls with
  | nil => simp [unlines]
  | cons l ls ih =>
    have h1 := h l (by simp)
    have h2 := ih (fun x hx => h x (by simp [hx]))
    simp only [unlines, List.length_append, List.length_cons, Nat.succ_mul]
    omega

theorem filterMap_of_map_eq_some {α β : Type} (f : α → Option β) (l : List α) (r : List β)
    (h : l.map f = r.map some) : l.filterMap f = r := by
  induction l generalizing r with
  | nil =>
    cases r with
    | nil => rfl
    | cons _ _ => simp at h
  | cons x xs ih =>
    cases r with
    | nil => simp at h
    | cons y ys =>
      simp only [List.map_cons, List.cons.injEq] at h
      rw [List.filterMap_cons, h.1, ih ys h.2]

/-- The wire text of a list of records: every record rendered and newline-terminated. -/
theorem wire_facts (recs : List (List Int)) (hn2 : recs.length ≤ 10)
    (hwf : ∀ r ∈ recs, WellFormedRecord r) :
    appendData [] (unlines NL (recs.map renderRecord)) = unlines NL (recs.map renderRecord)
    ∧ split NL (unlines NL (recs.map renderRecord)) = recs.map renderRecord ++ [[]]
    ∧ (recs.map renderRecord).map decodeLine = recs.map some := by
  refine ⟨?_, ?_, ?_⟩
  · have hlen := unlines_length_le NL (recs.map renderRecord) 47 (by
      intro l hl
      obtain ⟨r, hr, rfl⟩ := List.mem_map.mp hl
      exact renderRecord_length r (hwf r hr))
    rw [List.length_map] at hlen
    unfold appendData
    simp only [List.nil_append]
    rw [if_neg]
    have : recs.length * (47 + 1) ≤ 480 := by omega
    omega
  · have h := split_unlines_append NL (recs.map renderRecord) [] (by
      intro l hl
      obtain ⟨r, hr, rfl⟩ := List.mem_map.mp hl
      exact not_mem_renderRecord r (hwf r hr))
    rw [List.append_nil] at h
    rw [h]
    rfl
  · rw [List.map_map]
    apply List.map_congr_left
    intro r hr
    exact decodeLine_renderRecord r (hwf r hr)

theorem unlines_ne_nil (sep : Byte) (ls : List (List Byte)) (h : ls ≠ []) :
    unlines sep ls ≠ [] := by
  cases ls with
  | nil => exact absurd rfl h
  | cons l ls => simp [unlines]

/-- The poll that reads the wire text of at most 10 well-formed records into an empty
buffer: what the buffer splits into, what is decoded, and what the poll leaves. -/
theorem poll_wellFormed (maxPoints : Nat) (recs : List (List Int)) (pd : List (List Int))
    (hn1 : 1 ≤ recs.length) (hn2 : recs.length ≤ 10)
    (hwf : ∀ r ∈ recs, WellFormedRecord r) :
    batchSize (appendData [] (unlines NL (recs.map renderRecord))) = recs.length
    ∧ (split NL (appendData [] (unlines NL (recs.map renderRecord)))).length > 1
    ∧ ((split NL (appendData [] (unlines NL (recs.map renderRecord)))).take
          (batchSize (appendData [] (unlines NL (recs.map renderRecord))))).map decodeLine
        = recs.map some
    ∧ decodedRecords (appendData [] (unlines NL (recs.map renderRecord))) = recs
    ∧ (updatePlot maxPoints ⟨true, false, true, [], pd⟩
          (unlines NL (recs.map renderRecord))).serialData = [] := by
  obtain ⟨h1, h2, h3⟩ := wire_facts recs hn2 hwf
  have hlen : (recs.map renderRecord ++ [[]]).length = recs.length + 1 := by simp
  have hb : batchSize (unlines NL (recs.map renderRecord)) = recs.length := by
    unfold batchSize
    rw [h2, hlen]
    omega
  have htake : (recs.map renderRecord ++ [[]]).take recs.length = recs.map renderRecord := by
    rw [List.take_append_of_le_length (by simp), List.take_of_length_le (by simp)]
  have hdrop : (recs.map renderRecord ++ [[]]).drop recs.length = [[]] := by
    rw [List.drop_append_of_le_length (by simp), List.drop_of_length_le (by simp)]
    rfl
  have hne : unlines NL (recs.map renderRecord) ≠ [] := by
    apply unlines_ne_nil
    intro h
    have h' := congrArg List.length h
    rw [List.length_map, List.length_nil] at h'
    omega
  rw [h1]
  refine ⟨hb, by rw [h2, hlen]; omega, ?_, ?_, ?_⟩
  · rw [hb, h2, htake, h3]
  · unfold decodedRecords
    simp only [h2, hlen]
    rw [if_pos (by omega)]
    have e : min 10 (recs.length + 1 - 1) = recs.length := by omega
    rw [e, htake]
    exact filterMap_of_map_eq_some _ _ _ h3
  · rw [updatePlot_active _ _ _ ⟨rfl, rfl, rfl⟩ hne]
    simp only [h1]
    unfold drain
    simp only [h2, hlen]
    rw [if_pos (by omega)]
    have e : min 10 (recs.length + 1 - 1) = recs.length := by omega
    simp only [e, hdrop]
    rfl

theorem dropWhile_replicate_append (p : Byte → Bool) (x : Byte) (n : Nat) (t : List Byte)
    (h : p x = true) : (List.replicate n x ++ t).dropWhile p = t.dropWhile p := by
  induction n with
  | zero => rfl
  | succ n ih => rw [List.replicate_succ, List.cons_append, List.dropWhile_cons_of_pos h, ih]

theorem trimmed_replicate_space_append (n : Nat) (t : List Byte) :
    trimmed (List.replicate n 32 ++ t) = trimmed t := by
  unfold trimmed
  rw [dropWhile_replicate_append isSpace 32 n t (by decide)]

/-- A line of five fields, `5`, then `n` spaces and `1`, then `2`, `3`, `4`: what a poll
makes of it when it is longer than the buffer cap. -/
theorem oversize_line (n : Nat) (hn : 99990 < n) :
    NL ∉ [53, 9] ++ List.replicate n 32 ++ [49, 9, 50, 9, 51, 9, 52]
    ∧ (split TAB (trimmed ([53, 9] ++ List.replicate n 32 ++ [49, 9, 50, 9, 51, 9, 52]))).length
        = 5
    ∧ decodedRecords
          (appendData [] ([53, 9] ++ List.replicate n 32 ++ [49, 9, 50, 9, 51, 9, 52] ++ [NL]))
        = [[1, 2, 3, 4]] := by
  have hnl32 : NL ∉ List.replicate n (32 : Byte) := by
    intro h
    have := List.eq_of_mem_replicate h
    exact absurd this (by decide)
  have htab32 : TAB ∉ List.replicate n (32 : Byte) := by
    intro h
    have := List.eq_of_mem_replicate h
    exact absurd this (by decide)
  refine ⟨?_, ?_, ?_⟩
  · intro h
    rcases List.mem_append.mp h with h | h
    · rcases List.mem_append.mp h with h | h
      · exact absurd h (by decide)
      · exact hnl32 h
    · exact absurd h (by decide)
  · have htrim : trimmed ([53, 9] ++ List.replicate n 32 ++ [49, 9, 50, 9, 51, 9, 52])
        = [53, 9] ++ List.replicate n 32 ++ [49, 9, 50, 9, 51, 9, 52] := by
      apply trimmed_eq_self
      · intro x hx
        simp only [List.cons_append, List.head?_cons, Option.some.injEq] at hx
        subst hx
        decide
      · intro x hx
        rw [List.getLast?_append_of_ne_nil _ (by simp)] at hx
        simp only [List.getLast?_cons_cons, List.getLast?_singleton, Option.some.injEq] at hx
        subst hx
        decide
    rw [htrim]
    have e : [53, 9] ++ List.replicate n 32 ++ [49, 9, 50, 9, 51, 9, 52]
        = [53] ++ TAB :: ((List.replicate n 32 ++ [49]) ++ TAB :: [50, 9, 51, 9, 52]) := by
      simp [TAB]
    rw [e, split_append_sep TAB [53] _ (by decide),
      split_append_sep TAB (List.replicate n 32 ++ [49]) _ (by
        intro h
        rcases List.mem_append.mp h with h | h
        · exact htab32 h
        · exact absurd h (by decide))]
    have : split TAB [50, 9, 51, 9, 52] = [[50], [51], [52]] := by decide
    rw [this]
    rfl
  · have happ : appendData []
        ([53, 9] ++ List.replicate n 32 ++ [49, 9, 50, 9, 51, 9, 52] ++ [NL])
        = List.replicate 49992 32 ++ [49, 9, 50, 9, 51, 9, 52] ++ [NL] := by
      unfold appendData right
      simp only [List.nil_append]
      have hl : ([53, 9] ++ List.replicate n 32 ++ [49, 9, 50, 9, 51, 9, 52] ++ [NL]).length
          = n + 10 := by
        simp only [List.length_append, List.length_replicate, List.length_cons,
          List.length_nil]
        omega
      rw [hl, if_pos (by omega)]
      have e1 : n + 10 - 50000 = 2 + (n - 49992) := by omega
      rw [e1, List.append_assoc, List.append_assoc, ← List.drop_drop,
        List.drop_left' (by rfl), List.drop_append_eq_append_drop, List.drop_replicate,
        List.length_replicate]
      have e2 : n - (n - 49992) = 49992 := by omega
      have e3 : n - 49992 - n = 0 := by omega
      rw [e2, e3, List.drop_zero, List.append_assoc]
    rw [happ]
    unfold decodedRecords
    have hs : split NL (List.replicate 49992 32 ++ [49, 9, 50, 9, 51, 9, 52] ++ [NL])
        = [List.replicate 49992 32 ++ [49, 9, 50, 9, 51, 9, 52], []] := by
      rw [split_append_sep NL _ [] (by
        intro h
        rcases List.mem_append.mp h with h | h
        · exact absurd (List.eq_of_mem_replicate h) (by decide)
        · exact absurd h (by decide))]
      rfl
    simp only [hs]
    have hd : decodeLine (List.replicate 49992 32 ++ [49, 9, 50, 9, 51, 9, 52])
        = some [1, 2, 3, 4] := by
      unfold decodeLine
      rw [trimmed_replicate_space_append]
      decide
    rw [if_pos (by decide)]
    have : min 10 ([List.replicate 49992 32 ++ [49, 9, 50, 9, 51, 9, 52],
        ([] : List Byte)].length - 1) = 1 := by decide
    rw [this]
    simp only [List.take_succ_cons, List.take_zero, List.filterMap_cons, hd,
      List.filterMap_nil]

/-- C8, refuted as stated, for both ways of counting the fields of a line. (1) Counted on
the line as received: `1<TAB>2<TAB>3<TAB>4<TAB>` has five tab-separated fields, yet it is
decoded as the record `[1,2,3,4]`, the trailing tab being trimmed first. (2) Counted after
trimming: the line `5<TAB>`, 100000 spaces, `1<TAB>2<TAB>3<TAB>4` has five fields, but
with its newline it is longer than 100000 bytes, so the append keeps only its last 50000
bytes, and from those the record `[1,2,3,4]` is decoded. -/
theorem C8_counterexample :
    ((split TAB [49, 9, 50, 9, 51, 9, 52, 9]).length = 5
      ∧ decodedRecords (appendData [] [49, 9, 50, 9, 51, 9, 52, 9, 10]) = [[1, 2, 3, 4]])
    ∧ (NL ∉ [53, 9] ++ List.replicate 100000 32 ++ [49, 9, 50, 9, 51, 9, 52]
      ∧ (split TAB (trimmed
            ([53, 9] ++ List.replicate 100000 32 ++ [49, 9, 50, 9, 51, 9, 52]))).length = 5
      ∧ decodedRecords (appendData []
            ([53, 9] ++ List.replicate 100000 32 ++ [49, 9, 50, 9, 51, 9, 52] ++ [NL]))
          = [[1, 2, 3, 4]]) :=
  ⟨⟨by decide, by decide⟩, oversize_line 100000 (by decide)⟩

/-- C8, amended. A line without newline, shorter than 100000 bytes, whose field count
after trimming is not `CHANNELS`, read with its newline by one poll into an empty buffer:
the poll decodes no record, consumes the line so that the buffer is empty afterwards, and
writes no field (the channels are only shifted by the one line consumed). -/
theorem C8_short_record (maxPoints : Nat) (line : List Byte) (pd : List (List Int))
    (hnl : NL ∉ line) (hlen : line.length < 100000)
    (hcount : (split TAB (trimmed line)).length ≠ CHANNELS) :
    decodedRecords (appendData [] (line ++ [NL])) = []
    ∧ (updatePlot maxPoints ⟨true, false, true, [], pd⟩ (line ++ [NL])).serialData = []
    ∧ (updatePlot maxPoints ⟨true, false, true, [], pd⟩ (line ++ [NL])).plotData
        = shiftAll maxPoints 1 pd := by
  have happ : appendData [] (line ++ [NL]) = line ++ [NL] := by
    unfold appendData
    simp only [List.nil_append]
    rw [if_neg (by rw [List.length_append, List.length_singleton]; omega)]
  have hsplit : split NL (line ++ [NL]) = [line, []] := by
    rw [split_append_sep NL line [] hnl]
    rfl
  have hupd : updatePlot maxPoints ⟨true, false, true, [], pd⟩ (line ++ [NL])
      = ⟨true, false, true, [], shiftAll maxPoints 1 pd⟩ := by
    rw [updatePlot_active _ _ _ ⟨rfl, rfl, rfl⟩ (by simp)]
    simp only [happ]
    unfold drain
    simp only [hsplit]
    rw [if_pos (by simp)]
    have hb : min 10 ([line, ([] : List Byte)].length - 1) = 1 := by simp
    simp only [hb]
    have hw : writeBatch maxPoints 1 [line, []] (shiftAll maxPoints 1 pd)
        = shiftAll maxPoints 1 pd := by
      unfold writeBatch
      have hr : List.range 1 = [0] := by decide
      rw [hr]
      simp only [List.foldl_cons, List.foldl_nil]
      exact writeLine_of_skip _ _ _ _ _ (Or.inr hcount)
    rw [hw]
    rfl
  refine ⟨?_, by rw [hupd], by rw [hupd]⟩
  rw [happ]
  unfold decodedRecords
  simp only [hsplit]
  rw [if_pos (by simp)]
  have hb : min 10 ([line, ([] : List Byte)].length - 1) = 1 := by simp
  rw [hb]
  simp only [List.take_succ_cons, List.take_zero, List.filterMap_cons,
    decodeLine_of_count line hcount, List.filterMap_nil]

/-- C8, the scenario: the bytes `1<TAB>2<TAB>3<NL>` decode to no record and leave the
buffer empty. -/
theorem C8_short_record_witness :
    decodedRecords (appendData [] [49, 9, 50, 9, 51, 10]) = []
    ∧ (updatePlot MAX_PLOT_POINTS ⟨true, false, true, [], initPlotData MAX_PLOT_POINTS⟩
        [49, 9, 50, 9, 51, 10]).serialData = [] :=
  ⟨(C8_short_record MAX_PLOT_POINTS [49, 9, 50, 9, 51] (initPlotData MAX_PLOT_POINTS)
      (by decide) (by decide) (by decide)).1,
    (C8_short_record MAX_PLOT_POINTS [49, 9, 50, 9, 51] (initPlotData MAX_PLOT_POINTS)
      (by decide) (by decide) (by decide)).2.1⟩

theorem validRecords_unlines_append (ls : List (List Byte)) (y : List Byte)
    (h : ∀ l ∈ ls, NL ∉ l) :
    validRecords (unlines NL ls ++ y) = ls.filterMap decodeLine ++ validRecords y := by
  unfold validRecords
  rw [split_unlines_append NL ls y h, List.dropLast_append_of_ne_nil _ (split_ne_nil NL y),
    List.filterMap_append]

/-- What a drain decodes and what it keeps account for the valid records of the buffer,
whatever bytes follow. -/
theorem validRecords_drain (maxPoints : Nat) (s : MainWindow) (x : List Byte) :
    validRecords (s.serialData ++ x)
      = decodedRecords s.serialData ++ validRecords ((drain maxPoints s).serialData ++ x) := by
  unfold drain decodedRecords
  simp only
  by_cases hl : (split NL s.serialData).length > 1
  · simp only [hl, if_true]
    have hk : min 10 ((split NL s.serialData).length - 1) < (split NL s.serialData).length := by
      omega
    have hb := buffer_eq_unlines_append s.serialData _ hk
    have hno : ∀ l ∈ (split NL s.serialData).take (min 10 ((split NL s.serialData).length - 1)),
        NL ∉ l := fun l hl => not_mem_of_mem_split NL s.serialData l (List.mem_of_mem_take hl)
    conv_lhs => rw [hb]
    rw [List.append_assoc, validRecords_unlines_append _ _ hno]
  · simp only [hl, if_false, List.nil_append]

theorem drain_flags (maxPoints : Nat) (s : MainWindow) :
    (drain maxPoints s).isAcquiring = s.isAcquiring
    ∧ (drain maxPoints s).isPaused = s.isPaused
    ∧ (drain maxPoints s).portOpen = s.portOpen := by
  unfold drain
  simp only
  split <;> exact ⟨rfl, rfl, rfl⟩

theorem appendData_of_le (buf chunk : List Byte) (h : (buf ++ chunk).length ≤ 100000) :
    appendData buf chunk = buf ++ chunk := by
  unfold appendData
  simp only
  rw [if_neg (by omega)]

/-- The records decoded by the polls of a chunking, followed by the valid records still
buffered, are the valid records of everything received. -/
theorem feed_records (maxPoints : Nat) (chunks : List (List Byte)) :
    ∀ s : MainWindow, s.isAcquiring = true ∧ s.isPaused = false ∧ s.portOpen = true →
      (s.serialData ++ allBytes chunks).length ≤ 100000 →
      (feed maxPoints s chunks).2 ++ validRecords (feed maxPoints s chunks).1.serialData
        = validRecords (s.serialData ++ allBytes chunks) := by
  induction chunks with
  | nil =>
    intro s _ _
    simp [feed, allBytes]
  | cons c cs ih =>
    intro s hact hlen
    simp only [feed, allBytes]
    by_cases hc : c = []
    · subst hc
      have hu : updatePlot maxPoints s [] = s := by
        simp [updatePlot]
      have hp : pollRecords s [] = [] := by
        simp [pollRecords]
      rw [hu, hp, List.nil_append, List.nil_append]
      exact ih s hact (by simpa [allBytes] using hlen)
    · have hu := updatePlot_active maxPoints s c hact hc
      have hle : (s.serialData ++ c).length ≤ 100000 := by
        simp only [allBytes, List.length_append] at hlen ⊢
        omega
      have happ := appendData_of_le s.serialData c hle
      have hp : pollRecords s c = decodedRecords (s.serialData ++ c) := by
        obtain ⟨h1, h2, h3⟩ := hact
        have h4 : c.isEmpty = false := by
          cases c with
          | nil => exact absurd rfl hc
          | cons _ _ => rfl
        simp [pollRecords, h1, h2, h3, h4, happ]
      rw [hu, hp, happ]
      have hf := drain_flags maxPoints { s with serialData := s.serialData ++ c }
      have hs := drain_serialData_length_le maxPoints { s with serialData := s.serialData ++ c }
      simp only at hf hs
      have hact2 : (drain maxPoints { s with serialData := s.serialData ++ c }).isAcquiring = true
          ∧ (drain maxPoints { s with serialData := s.serialData ++ c }).isPaused = false
          ∧ (drain maxPoints { s with serialData := s.serialData ++ c }).portOpen = true := by
        rw [hf.1, hf.2.1, hf.2.2]
        exact hact
      have hlen2 : ((drain maxPoints { s with serialData := s.serialData ++ c }).serialData
          ++ allBytes cs).length ≤ 100000 := by
        simp only [allBytes, List.length_append] at hlen hs ⊢
        omega
      rw [List.append_assoc, ih _ hact2 hlen2, ← List.append_assoc s.serialData c]
      exact (validRecords_drain maxPoints { s with serialData := s.serialData ++ c }
        (allBytes cs)).symm

theorem updatePlot_flags (maxPoints : Nat) (s : MainWindow) (newData : List Byte) :
    (updatePlot maxPoints s newData).isAcquiring = s.isAcquiring
    ∧ (updatePlot maxPoints s newData).isPaused = s.isPaused
    ∧ (updatePlot maxPoints s newData).portOpen = s.portOpen := by
  unfold updatePlot
  split
  · split
    · exact drain_flags maxPoints _
    · exact ⟨rfl, rfl, rfl⟩
  · exact ⟨rfl, rfl, rfl⟩

theorem updatePlot_serialData_le (maxPoints : Nat) (s : MainWindow) (newData : List Byte)
    (h : s.serialData.length ≤ 100000) :
    (updatePlot maxPoints s newData).serialData.length ≤ 100000 := by
  unfold updatePlot
  split
  · split
    · exact Nat.le_trans (drain_serialData_length_le _ _) (appendData_length_le _ _)
    · exact h
  · exact h

theorem feed_serialData_le (maxPoints : Nat) (chunks : List (List Byte)) :
    ∀ s : MainWindow, s.serialData.length ≤ 100000 →
      (feed maxPoints s chunks).1.serialData.length ≤ 100000 := by
  induction chunks with
  | nil => intro s h; exact h
  | cons c cs ih =>
    intro s h
    simp only [feed]
    exact ih _ (updatePlot_serialData_le maxPoints s c h)

/-- C4. Overflow bound: whatever the buffer held, after an append its length is at most
100000; when buffer plus chunk exceed 100000 bytes, the buffer afterwards is exactly the
trailing 50000 bytes of buffer plus chunk; and from a buffer of at most 100000 bytes, any
sequence of polls (append, then drain, one per chunk) leaves at most 100000 bytes. -/
theorem C4_overflow_bound (maxPoints : Nat) (serialData chunk : List Byte) :
    (appendData serialData chunk).length ≤ 100000
    ∧ ((serialData ++ chunk).length > 100000 →
        appendData serialData chunk
            = (serialData ++ chunk).drop ((serialData ++ chunk).length - 50000)
          ∧ (appendData serialData chunk).length = 50000)
    ∧ (∀ (s : MainWindow) (chunks : List (List Byte)), s.serialData.length ≤ 100000 →
        (feed maxPoints s chunks).1.serialData.length ≤ 100000) := by
  refine ⟨appendData_length_le _ _, ?_, fun s chunks h => feed_serialData_le maxPoints chunks s h⟩
  intro h
  have e : appendData serialData chunk
      = (serialData ++ chunk).drop ((serialData ++ chunk).length - 50000) := by
    unfold appendData right
    simp only [h, if_true]
  refine ⟨e, ?_⟩
  rw [e, List.length_drop]
  omega

/-- C4 at a truncation: 60000 buffered bytes `a` and a chunk of 60000 bytes `b` leave the
last 50000 bytes, all `b`. -/
theorem C4_overflow_bound_witness :
    appendData (List.replicate 60000 97) (List.replicate 60000 98)
      = List.replicate 50000 98 := by
  have h := (C4_overflow_bound MAX_PLOT_POINTS (List.replicate 60000 97)
    (List.replicate 60000 98)).2.1
    (by rw [List.length_append, List.length_replicate, List.length_replicate]; decide)
  rw [h.1, List.length_append, List.length_replicate, List.length_replicate,
    List.drop_append_eq_append_drop, List.drop_replicate, List.drop_replicate,
    List.length_replicate]
  simp only [Nat.reduceAdd, Nat.reduceSub, List.replicate_zero, List.nil_append]

/-! ## The consumed prefix, the empty read, the stale slot -/

theorem dropLines_line (m : Nat) (l rest : List Byte) (h : NL ∉ l) :
    dropLines (m + 1) (l ++ NL :: rest) = dropLines m rest := by
  induction l with
  | nil => simp [dropLines]
  | cons c cs ih =>
    have hc : c ≠ NL := fun e => h (by simp [e])
    have hcs : NL ∉ cs := fun e => h (by simp [e])
    rw [List.cons_append, dropLines]
    simp only [hc, if_false]
    exact ih hcs

theorem dropLines_unlines_append (ls : List (List Byte)) (y : List Byte)
    (h : ∀ l ∈ ls, NL ∉ l) : dropLines ls.length (unlines NL ls ++ y) = y := by
  induction ls with
  | nil => simp [unlines, dropLines]
  | cons l ls ih =>
    have h1 : NL ∉ l := h l (by simp)
    have h2 : ∀ x ∈ ls, NL ∉ x := fun x hx => h x (by simp [hx])
    rw [unlines, List.append_assoc, List.cons_append, List.length_cons,
      dropLines_line _ _ _ h1]
    exact ih h2

theorem batchSize_eq_count (b : List Byte) : batchSize b = min 10 (b.count NL) := by
  unfold batchSize
  rw [split_length]
  rfl

/-- What a drain of a buffer with a complete line consumes and keeps. -/
theorem drain_consumes (maxPoints : Nat) (s : MainWindow) (hn : 1 ≤ s.serialData.count NL) :
    batchSize s.serialData = min 10 (s.serialData.count NL)
    ∧ ((split NL s.serialData).take (min 10 (s.serialData.count NL))).length
        = min 10 (s.serialData.count NL)
    ∧ (∀ l ∈ (split NL s.serialData).take (min 10 (s.serialData.count NL)), NL ∉ l)
    ∧ s.serialData
        = unlines NL ((split NL s.serialData).take (min 10 (s.serialData.count NL)))
          ++ (drain maxPoints s).serialData
    ∧ (drain maxPoints s).serialData
        = dropLines (min 10 (s.serialData.count NL)) s.serialData := by
  have hlen := split_length NL s.serialData
  have hl : (split NL s.serialData).length > 1 := by omega
  have hk : min 10 (s.serialData.count NL) < (split NL s.serialData).length := by omega
  have htl : ((split NL s.serialData).take (min 10 (s.serialData.count NL))).length
      = min 10 (s.serialData.count NL) := by
    rw [List.length_take]
    omega
  have hno : ∀ l ∈ (split NL s.serialData).take (min 10 (s.serialData.count NL)), NL ∉ l :=
    fun l hl => not_mem_of_mem_split NL s.serialData l (List.mem_of_mem_take hl)
  have hd : (drain maxPoints s).serialData
      = join NL ((split NL s.serialData).drop (min 10 (s.serialData.count NL))) := by
    unfold drain
    simp only [hl, if_true]
    have e : min 10 ((split NL s.serialData).length - 1) = min 10 (s.serialData.count NL) := by
      rw [hlen]
      rfl
    rw [e]
  have hb := buffer_eq_unlines_append s.serialData _ hk
  rw [← hd] at hb
  refine ⟨batchSize_eq_count _, htl, hno, hb, ?_⟩
  have h2 := dropLines_unlines_append _ (drain maxPoints s).serialData hno
  rw [htl, ← hb] at h2
  exact h2.symm

/-- C11. Consumed prefix, retained remainder: a drain of a buffer with `n ≥ 1` newline
bytes takes `m = min(10, n)` lines; the buffer is those `m` lines, each free of newlines
and followed by its newline, followed by exactly what the drain keeps; and what it keeps
is the suffix of the buffer after its `m`-th newline. -/
theorem C11_consumed_lines (maxPoints : Nat) (s : MainWindow)
    (hn : 1 ≤ s.serialData.count NL) :
    batchSize s.serialData = min 10 (s.serialData.count NL)
    ∧ ((split NL s.serialData).take (min 10 (s.serialData.count NL))).length
        = min 10 (s.serialData.count NL)
    ∧ (∀ l ∈ (split NL s.serialData).take (min 10 (s.serialData.count NL)), NL ∉ l)
    ∧ s.serialData
        = unlines NL ((split NL s.serialData).take (min 10 (s.serialData.count NL)))
          ++ (drain maxPoints s).serialData
    ∧ (drain maxPoints s).serialData
        = dropLines (min 10 (s.serialData.count NL)) s.serialData :=
  drain_consumes maxPoints s hn

/-- C11 on the buffer `a<NL>b<NL>c`: two lines are consumed and the partial line `c`
stays. -/
theorem C11_consumed_lines_witness :
    (drain 5 ⟨true, false, true, [97, 10, 98, 10, 99], initPlotData 5⟩).serialData = [99] :=
  ((C11_consumed_lines 5 ⟨true, false, true, [97, 10, 98, 10, 99], initPlotData 5⟩
    (by decide)).2.2.2.2).trans (by decide)

/-- C14. Empty read: a poll whose read returns no byte returns the state it was given, so
the raw buffer and every channel series are unchanged, whatever the buffer holds. -/
theorem C14_empty_read_noop (maxPoints : Nat) (s : MainWindow) :
    updatePlot maxPoints s [] = s
    ∧ (updatePlot maxPoints s []).serialData = s.serialData
    ∧ (updatePlot maxPoints s []).plotData = s.plotData := by
  have h : updatePlot maxPoints s [] = s := by
    simp [updatePlot]
  rw [h]
  exact ⟨rfl, rfl, rfl⟩

/-- C14 on a buffer that still holds one complete line `0<TAB>0<TAB>0<TAB>0<NL>`: the
empty read decodes nothing of it and leaves it buffered. -/
theorem C14_empty_read_noop_witness :
    updatePlot 5 ⟨true, false, true, [48, 9, 48, 9, 48, 9, 48, 10], initPlotData 5⟩ []
      = ⟨true, false, true, [48, 9, 48, 9, 48, 9, 48, 10], initPlotData 5⟩ :=
  (C14_empty_read_noop 5
    ⟨true, false, true, [48, 9, 48, 9, 48, 9, 48, 10], initPlotData 5⟩).1

/-- The slot of a consumed line that is skipped, after the poll. -/
theorem updatePlot_stale_slot (maxPoints : Nat) (s : MainWindow) (newData : List Byte)
    (hact : s.isAcquiring = true ∧ s.isPaused = false ∧ s.portOpen = true)
    (hnew : newData ≠ [])
    (hpd : s.plotData.length = CHANNELS)
    (hlen : ∀ a ∈ s.plotData, a.length = maxPoints)
    (hlines : (split NL (appendData s.serialData newData)).length > 1)
    (hk : batchSize (appendData s.serialData newData) ≤ maxPoints)
    (l : Nat) (hl : l < batchSize (appendData s.serialData newData))
    (hskip : (trimmed ((split NL (appendData s.serialData newData)).getD l [])).isEmpty = true
      ∨ (split TAB (trimmed ((split NL (appendData s.serialData newData)).getD l []))).length
          ≠ CHANNELS)
    (c : Nat) (hc : c < CHANNELS) :
    ((updatePlot maxPoints s newData).plotData.getD c []).getD
        (maxPoints - batchSize (appendData s.serialData newData) + l) 0
      = (s.plotData.getD c []).getD
        (maxPoints - batchSize (appendData s.serialData newData) + l) 0 := by
  have hcp : c < s.plotData.length := by omega
  have ha := getD_length_of_forall s.plotData maxPoints c hcp hlen
  have hser := drain_series maxPoints { s with serialData := appendData s.serialData newData } c
    hlines hk hc hcp ha
  simp only at hser
  rw [updatePlot_active maxPoints s newData hact hnew, hser]
  generalize batchSize (appendData s.serialData newData) = b at hk hl ⊢
  generalize s.plotData.getD c [] = a at ha ⊢
  have h1 : lineSlot ((split NL (appendData s.serialData newData)).getD l []) c
      (a.getD (maxPoints - b + l) 0) = a.getD (maxPoints - b + l) 0 := by
    rcases hskip with h | h
    · exact lineSlot_of_empty _ _ _ h
    · exact lineSlot_of_count _ _ _ h
  have hX : (List.drop b a).length = maxPoints - b := by rw [List.length_drop, ha]
  conv_lhs => rw [List.getD_eq_getElem?_getD]
  rw [List.getElem?_append_right (by omega), hX]
  have e : maxPoints - b + l - (maxPoints - b) = l := by omega
  rw [e, List.getElem?_map, List.getElem?_range hl]
  simp only [Option.map_some', Option.getD_some]
  exact h1

/-- C15. Skipped line keeps a stale slot: in a poll that takes a batch of `batchSize`
lines over a history of `CHANNELS` series of length `maxPoints`, a consumed line at batch
index `l` that is empty after trimming, or whose field count is not `CHANNELS`, leaves in
slot `maxPoints - batchSize + l` of every channel the value that slot held before the
poll. -/
theorem C15_stale_slot (maxPoints : Nat) (s : MainWindow) (newData : List Byte)
    (hact : s.isAcquiring = true ∧ s.isPaused = false ∧ s.portOpen = true)
    (hnew : newData ≠ [])
    (hpd : s.plotData.length = CHANNELS)
    (hlen : ∀ a ∈ s.plotData, a.length = maxPoints)
    (hlines : (split NL (appendData s.serialData newData)).length > 1)
    (hk : batchSize (appendData s.serialData newData) ≤ maxPoints)
    (l : Nat) (hl : l < batchSize (appendData s.serialData newData))
    (hskip : (trimmed ((split NL (appendData s.serialData newData)).getD l [])).isEmpty = true
      ∨ (split TAB (trimmed ((split NL (appendData s.serialData newData)).getD l []))).length
          ≠ CHANNELS)
    (c : Nat) (hc : c < CHANNELS) :
    ((updatePlot maxPoints s newData).plotData.getD c []).getD
        (maxPoints - batchSize (appendData s.serialData newData) + l) 0
      = (s.plotData.getD c []).getD
        (maxPoints - batchSize (appendData s.serialData newData) + l) 0 :=
  updatePlot_stale_slot maxPoints s newData hact hnew hpd hlen hlines hk l hl hskip c hc

/-- C15 on a depth-5 history `[1, 2, 3, 4, 5]` and the three lines `7<TAB>7<TAB>7<TAB>7`,
`x`, `8<TAB>8<TAB>8<TAB>8`: the line at batch index 1 is skipped, and slot 5 - 3 + 1 = 3
holds 4 after the poll, as before; the series is `[4, 5, 7, 4, 8]`. -/
theorem C15_stale_slot_witness :
    ((updatePlot 5 ⟨true, false, true, [], [[1, 2, 3, 4, 5], [0, 0, 0, 0, 0],
        [0, 0, 0, 0, 0], [0, 0, 0, 0, 0]]⟩
      [55, 9, 55, 9, 55, 9, 55, 10, 120, 10, 56, 9, 56, 9, 56, 9, 56, 10]).plotData.getD 0 []).getD
        3 0 = 4
    ∧ (updatePlot 5 ⟨true, false, true, [], [[1, 2, 3, 4, 5], [0, 0, 0, 0, 0],
        [0, 0, 0, 0, 0], [0, 0, 0, 0, 0]]⟩
      [55, 9, 55, 9, 55, 9, 55, 10, 120, 10, 56, 9, 56, 9, 56, 9, 56, 10]).plotData.getD 0 []
        = [4, 5, 7, 4, 8] :=
  ⟨(C15_stale_slot 5 ⟨true, false, true, [], [[1, 2, 3, 4, 5], [0, 0, 0, 0, 0],
        [0, 0, 0, 0, 0], [0, 0, 0, 0, 0]]⟩
      [55, 9, 55, 9, 55, 9, 55, 10, 120, 10, 56, 9, 56, 9, 56, 9, 56, 10]
      (by decide) (by decide) (by decide) (by decide) (by decide) (by decide)
      1 (by decide) (by decide) 0 (by decide)).trans (by decide),
    by decide⟩

/-! ## The firmware line -/

theorem dropWhile_append_of_all (p : Byte → Bool) (a b : List Byte)
    (h : ∀ x ∈ a, p x = true) : (a ++ b).dropWhile p = b.dropWhile p := by
  induction a with
  | nil => rfl
  | cons x xs ih =>
    have h1 := h x (by simp)
    rw [List.cons_append, List.dropWhile_cons_of_pos h1]
    exact ih (fun y hy => h y (by simp [hy]))

theorem trimmed_append_space (X ws : List Byte) (hne : X ≠ [])
    (h1 : ∀ x, X.head? = some x → isSpace x = false)
    (h2 : ∀ x, X.getLast? = some x → isSpace x = false)
    (hws : ∀ x ∈ ws, isSpace x = true) : trimmed (X ++ ws) = X := by
  unfold trimmed
  have e1 : (X ++ ws).dropWhile isSpace = X ++ ws := by
    apply dropWhile_eq_self_of_head
    intro x hx
    obtain ⟨a, as, rfl⟩ := List.exists_cons_of_ne_nil hne
    simp only [List.cons_append, List.head?_cons, Option.some.injEq] at hx
    exact h1 x (by simp [hx])
  rw [e1, List.reverse_append,
    dropWhile_append_of_all isSpace ws.reverse X.reverse
      (fun x hx => hws x (List.mem_reverse.mp hx)),
    dropWhile_eq_self_of_head isSpace X.reverse (by rw [List.head?_reverse]; exact h2),
    List.reverse_reverse]

theorem renderRecord_ends (r : List Int) (h : WellFormedRecord r) :
    renderRecord r ≠ []
    ∧ (∀ x, (renderRecord r).head? = some x → isSpace x = false)
    ∧ (∀ x, (renderRecord r).getLast? = some x → isSpace x = false) := by
  obtain ⟨v0, v1, v2, v3, rfl, _⟩ := wellFormed_cases r h
  have p0 := plainField_renderInt v0
  have p3 := plainField_renderInt v3
  have hj : renderRecord [v0, v1, v2, v3]
      = renderInt v0 ++ TAB :: (renderInt v1 ++ TAB :: (renderInt v2 ++ TAB :: renderInt v3)) :=
    rfl
  rw [hj]
  obtain ⟨a, as, ha⟩ := List.exists_cons_of_ne_nil p0.1
  refine ⟨by rw [ha]; simp, ?_, ?_⟩
  · intro x hx
    rw [ha] at hx
    simp only [List.cons_append, List.head?_cons, Option.some.injEq] at hx
    subst hx
    exact p0.2 _ (by rw [ha]; simp)
  · intro x hx
    have e : renderInt v0 ++ TAB :: (renderInt v1 ++ TAB :: (renderInt v2 ++ TAB :: renderInt v3))
        = (renderInt v0 ++ TAB :: (renderInt v1 ++ TAB :: (renderInt v2 ++ [TAB])))
          ++ renderInt v3 := by simp
    rw [e, List.getLast?_append_of_ne_nil _ p3.1] at hx
    exact p3.2 _ (List.mem_of_getLast?_eq_some hx)

theorem decodeLine_congr (a b : List Byte) (h : trimmed a = trimmed b) :
    decodeLine a = decodeLine b := by
  unfold decodeLine
  rw [h]

theorem emitValues_four (v0 v1 v2 v3 : Int) :
    emitValues [v0, v1, v2, v3] = renderRecord [v0, v1, v2, v3] ++ [TAB] := by
  simp [emitValues, renderRecord, join]

/-- The line the firmware sends for a well-formed record: what trimming leaves of it, and
what the poll that reads it into an empty buffer does. -/
theorem firmware_line_facts (r : List Int) (h : WellFormedRecord r) :
    acquireDataLine r = renderRecord r ++ [TAB, 13, NL]
    ∧ trimmed (renderRecord r ++ [TAB, 13]) = renderRecord r
    ∧ (split TAB (trimmed (renderRecord r ++ [TAB, 13]))).length = CHANNELS
    ∧ appendData [] (acquireDataLine r) = acquireDataLine r
    ∧ split NL (acquireDataLine r) = [renderRecord r ++ [TAB, 13], []]
    ∧ decodeLine (renderRecord r ++ [TAB, 13]) = some r := by
  obtain ⟨hne, hh, hl⟩ := renderRecord_ends r h
  have hline : acquireDataLine r = renderRecord r ++ [TAB, 13, NL] := by
    obtain ⟨v0, v1, v2, v3, rfl, _⟩ := wellFormed_cases r h
    unfold acquireDataLine
    rw [emitValues_four]
    simp [NL]
  have htrim : trimmed (renderRecord r ++ [TAB, 13]) = renderRecord r :=
    trimmed_append_space _ _ hne hh hl (by decide)
  have hdec : decodeLine (renderRecord r ++ [TAB, 13]) = some r := by
    rw [decodeLine_congr _ (renderRecord r)
      (by rw [htrim, trimmed_eq_self _ hh hl])]
    exact decodeLine_renderRecord r h
  have hcount : (split TAB (trimmed (renderRecord r ++ [TAB, 13]))).length = CHANNELS := by
    have hd := hdec
    unfold decodeLine at hd
    simp only at hd
    by_contra hc
    simp [hc] at hd
  have hnl : NL ∉ renderRecord r ++ [TAB, 13] := by
    intro hm
    rcases List.mem_append.mp hm with hm | hm
    · exact not_mem_renderRecord r h hm
    · exact absurd hm (by decide)
  refine ⟨hline, htrim, hcount, ?_, ?_, hdec⟩
  · apply appendData_of_le
    have := renderRecord_length r h
    rw [hline]
    simp only [List.nil_append, List.length_append, List.length_cons, List.length_nil]
    omega
  · rw [hline]
    have e : renderRecord r ++ [TAB, 13, NL] = (renderRecord r ++ [TAB, 13]) ++ NL :: [] := by
      simp
    rw [e, split_append_sep NL _ [] hnl]
    rfl

/-- C13. The firmware line is accepted: for values `v0 .. v3` in the range of `int`, the
line `acquireData` sends is `v0<TAB>v1<TAB>v2<TAB>v3<TAB><CR><NL>`; trimming the line
removes the trailing tab and carriage return, the tab split then yields `CHANNELS` fields,
and the poll that reads the line into an empty buffer decodes the record
`[v0, v1, v2, v3]`, leaves the buffer empty, and stores the record in the newest slot of
the channels. -/
theorem C13_firmware_line (maxPoints : Nat) (v0 v1 v2 v3 : Int) (pd : List (List Int))
    (h0 : InIntRange v0) (h1 : InIntRange v1) (h2 : InIntRange v2) (h3 : InIntRange v3) :
    acquireDataLine [v0, v1, v2, v3]
        = renderInt v0 ++ TAB :: (renderInt v1 ++ TAB :: (renderInt v2 ++ TAB ::
            (renderInt v3 ++ [TAB, 13, NL])))
    ∧ trimmed (renderRecord [v0, v1, v2, v3] ++ [TAB, 13]) = renderRecord [v0, v1, v2, v3]
    ∧ (split TAB (trimmed (renderRecord [v0, v1, v2, v3] ++ [TAB, 13]))).length = CHANNELS
    ∧ decodedRecords (appendData [] (acquireDataLine [v0, v1, v2, v3])) = [[v0, v1, v2, v3]]
    ∧ (updatePlot maxPoints ⟨true, false, true, [], pd⟩
          (acquireDataLine [v0, v1, v2, v3])).serialData = []
    ∧ (pd.length = CHANNELS → (∀ a ∈ pd, a.length = maxPoints) → 1 ≤ maxPoints →
        ∀ c, c < CHANNELS →
          (updatePlot maxPoints ⟨true, false, true, [], pd⟩
              (acquireDataLine [v0, v1, v2, v3])).plotData.getD c []
            = (pd.getD c []).drop 1 ++ [[v0, v1, v2, v3].getD c 0]) := by
  have hwf : WellFormedRecord [v0, v1, v2, v3] := by
    refine ⟨rfl, ?_⟩
    intro v hv
    simp only [List.mem_cons, List.mem_singleton, List.not_mem_nil, or_false] at hv
    rcases hv with rfl | rfl | rfl | rfl <;> assumption
  obtain ⟨hline, htrim, hcount, happ, hsplit, hdec⟩ := firmware_line_facts _ hwf
  have hne : acquireDataLine [v0, v1, v2, v3] ≠ [] := by
    rw [hline]; simp
  have hb : batchSize (acquireDataLine [v0, v1, v2, v3]) = 1 := by
    unfold batchSize
    rw [hsplit]
    rfl
  have hrec : decodedRecords (acquireDataLine [v0, v1, v2, v3]) = [[v0, v1, v2, v3]] := by
    unfold decodedRecords
    simp only [hsplit]
    rw [if_pos (by simp)]
    have e : min 10 ([renderRecord [v0, v1, v2, v3] ++ [TAB, 13], ([] : List Byte)].length - 1)
        = 1 := by simp
    rw [e]
    simp only [List.take_succ_cons, List.take_zero, List.filterMap_cons, hdec,
      List.filterMap_nil]
  refine ⟨?_, htrim, hcount, by rw [happ]; exact hrec, ?_, ?_⟩
  · rw [hline]
    have hj : renderRecord [v0, v1, v2, v3]
        = renderInt v0 ++ TAB :: (renderInt v1 ++ TAB :: (renderInt v2 ++ TAB :: renderInt v3)) :=
      rfl
    rw [hj]
    simp
  · rw [updatePlot_active _ _ _ ⟨rfl, rfl, rfl⟩ hne]
    simp only [happ]
    unfold drain
    simp only [hsplit]
    rw [if_pos (by simp)]
    have e : min 10 ([renderRecord [v0, v1, v2, v3] ++ [TAB, 13], ([] : List Byte)].length - 1)
        = 1 := by simp
    simp only [e]
    rfl
  · intro hpd hlen hM c hc
    have hs := updatePlot_series_of_decoded maxPoints ⟨true, false, true, [], pd⟩
      (acquireDataLine [v0, v1, v2, v3]) [[v0, v1, v2, v3]] ⟨rfl, rfl, rfl⟩ hne hpd hlen
      (by simp only [happ, hsplit]; simp)
      (by simp only [happ, hb]; exact hM)
      (by
        simp only [happ, hb, hsplit]
        simp only [List.take_succ_cons, List.take_zero, List.map_cons, List.map_nil, hdec])
    exact (hs.2.2.2 c hc).1

/-- C13 on the values 3, 0, 5, 1: the line is `3<TAB>0<TAB>5<TAB>1<TAB><CR><NL>` and the
poll decodes `[3, 0, 5, 1]`. -/
theorem C13_firmware_line_witness :
    acquireDataLine [3, 0, 5, 1] = [51, 9, 48, 9, 53, 9, 49, 9, 13, 10]
    ∧ decodedRecords (appendData [] [51, 9, 48, 9, 53, 9, 49, 9, 13, 10]) = [[3, 0, 5, 1]] :=
  ⟨by decide,
    (C13_firmware_line MAX_PLOT_POINTS 3 0 5 1 (initPlotData MAX_PLOT_POINTS)
      (by decide) (by decide) (by decide) (by decide)).2.2.2.1⟩

/-! ## The fixed-depth invariant -/

theorem shaped_initPlotData (maxPoints : Nat) : Shaped maxPoints (initPlotData maxPoints) := by
  refine ⟨initPlotData_length maxPoints, ?_⟩
  intro a ha
  unfold initPlotData at ha
  rw [List.eq_of_mem_replicate ha, List.length_replicate]

theorem drain_plotData_length (maxPoints : Nat) (s : MainWindow) :
    (drain maxPoints s).plotData.length = s.plotData.length := by
  unfold drain
  simp only
  split
  · simp only [writeBatch_length, shiftAll_length]
  · rfl

theorem drain_shaped (maxPoints : Nat) (s : MainWindow) (hM : 10 ≤ maxPoints)
    (h : Shaped maxPoints s.plotData) : Shaped maxPoints (drain maxPoints s).plotData := by
  obtain ⟨hpd, hlen⟩ := h
  have hl := drain_plotData_length maxPoints s
  refine ⟨by rw [hl]; exact hpd, ?_⟩
  by_cases hlines : (split NL s.serialData).length > 1
  · intro a ha
    obtain ⟨c, hc, rfl⟩ := List.getElem_of_mem ha
    have hc4 : c < CHANNELS := by omega
    have hcp : c < s.plotData.length := by omega
    have hb : batchSize s.serialData ≤ maxPoints := by
      have := (batchSize_pos s.serialData hlines).2
      omega
    have hs := drain_series maxPoints s c hlines hb hc4 hcp
      (getD_length_of_forall s.plotData maxPoints c hcp hlen)
    rw [List.getD_eq_getElem?_getD, List.getElem?_eq_getElem hc] at hs
    simp only [Option.getD_some] at hs
    rw [hs, List.length_append, List.length_drop, List.length_map, List.length_range,
      getD_length_of_forall s.plotData maxPoints c hcp hlen]
    omega
  · have e : drain maxPoints s = s := by
      unfold drain
      simp only [hlines, if_false]
    rw [e]
    exact hlen

theorem updatePlot_shaped (maxPoints : Nat) (s : MainWindow) (newData : List Byte)
    (hM : 10 ≤ maxPoints) (h : Shaped maxPoints s.plotData) :
    Shaped maxPoints (updatePlot maxPoints s newData).plotData := by
  unfold updatePlot
  split
  · split
    · exact drain_shaped maxPoints _ hM h
    · exact h
  · exact h

theorem stopAcquisition_shaped (maxPoints : Nat) (hasPort : Bool) (s : MainWindow)
    (h : Shaped maxPoints s.plotData) :
    Shaped maxPoints (MainWindow.stopAcquisition maxPoints hasPort s).plotData := by
  unfold MainWindow.stopAcquisition
  split
  · simp only [clearPlot_plotData maxPoints s.plotData h.1]
    exact shaped_initPlotData maxPoints
  · exact h

theorem step_shaped (maxPoints : Nat) (s : MainWindow) (a : Action) (hM : 10 ≤ maxPoints)
    (h : Shaped maxPoints s.plotData) : Shaped maxPoints (step maxPoints s a).plotData := by
  cases a with
  | poll newData => exact updatePlot_shaped maxPoints s newData hM h
  | clear axisSelected checked sliderValue =>
    simp only [step, MainWindow.clearPlot, clearPlot_plotData maxPoints s.plotData h.1]
    exact shaped_initPlotData maxPoints
  | stop hasPort => exact stopAcquisition_shaped maxPoints hasPort s h
  | start configured openOk =>
    simp only [step, MainWindow.startAcquisition]
    split
    · exact h
    · split
      · split
        · exact stopAcquisition_shaped maxPoints true _ h
        · exact h
      · exact h
  | pauseResume configured openOk =>
    simp only [step, MainWindow.pauseResume]
    split
    · exact h
    · split
      · split <;> exact h
      · exact h

theorem run_shaped (maxPoints : Nat) (hM : 10 ≤ maxPoints) (actions : List Action) :
    ∀ s : MainWindow, Shaped maxPoints s.plotData →
      Shaped maxPoints (run maxPoints s actions).plotData := by
  induction actions with
  | nil => intro s h; exact h
  | cons a as ih =>
    intro s h
    exact ih _ (step_shaped maxPoints s a hM h)

/-- C12. Fixed-depth invariant: construction leaves `CHANNELS = 4` series of
`MAX_PLOT_POINTS = 1000` zeros; every operation (poll with any bytes, clear, stop, and
also start and pause/resume, which make polls effective) keeps a history of `CHANNELS`
series of length `MAX_PLOT_POINTS` in that shape; so every state reached from construction
by any sequence of operations has exactly 4 series, each of length exactly 1000. -/
theorem C12_fixed_depth_invariant :
    CHANNELS = 4 ∧ MAX_PLOT_POINTS = 1000
    ∧ (MainWindow.init MAX_PLOT_POINTS).plotData
        = List.replicate CHANNELS (List.replicate MAX_PLOT_POINTS 0)
    ∧ (∀ (s : MainWindow) (a : Action), Shaped MAX_PLOT_POINTS s.plotData →
        Shaped MAX_PLOT_POINTS (step MAX_PLOT_POINTS s a).plotData)
    ∧ (∀ actions : List Action,
        (run MAX_PLOT_POINTS (MainWindow.init MAX_PLOT_POINTS) actions).plotData.length
            = CHANNELS
          ∧ ∀ a ∈ (run MAX_PLOT_POINTS (MainWindow.init MAX_PLOT_POINTS) actions).plotData,
              a.length = MAX_PLOT_POINTS) := by
  have hM : 10 ≤ MAX_PLOT_POINTS := by decide
  refine ⟨rfl, rfl, rfl, fun s a h => step_shaped MAX_PLOT_POINTS s a hM h, ?_⟩
  intro actions
  exact run_shaped MAX_PLOT_POINTS hM actions (MainWindow.init MAX_PLOT_POINTS)
    (shaped_initPlotData MAX_PLOT_POINTS)

/-- C12 on the sequence start, poll of `1<TAB>2<TAB>3<TAB>4<NL>x<NL>`, clear, poll of
`7`, stop: the start makes the polls effective (acquiring, not paused, port open), and the
state reached has 4 series. -/
theorem C12_fixed_depth_invariant_witness :
    step MAX_PLOT_POINTS (MainWindow.init MAX_PLOT_POINTS) (Action.start true true)
        = ⟨true, false, true, [], initPlotData MAX_PLOT_POINTS⟩
    ∧ (run MAX_PLOT_POINTS (MainWindow.init MAX_PLOT_POINTS)
        [Action.start true true, Action.poll [49, 9, 50, 9, 51, 9, 52, 10, 120, 10],
          Action.clear false [true, false, false, false] 250, Action.poll [55],
          Action.stop true]).plotData.length = CHANNELS :=
  ⟨rfl,
    (C12_fixed_depth_invariant.2.2.2.2
      [Action.start true true, Action.poll [49, 9, 50, 9, 51, 9, 52, 10, 120, 10],
        Action.clear false [true, false, false, false] 250, Action.poll [55],
        Action.stop true]).1⟩

/-! ## Chunking and the channel history -/

theorem completeLines_unlines_append (ls : List (List Byte)) (y : List Byte)
    (h : ∀ l ∈ ls, NL ∉ l) :
    completeLines (unlines NL ls ++ y) = ls ++ completeLines y := by
  unfold completeLines
  rw [split_unlines_append NL ls y h, List.dropLast_append_of_ne_nil _ (split_ne_nil NL y)]

theorem decodedRecords_eq_batchLines (b : List Byte) :
    decodedRecords b = (batchLines b).filterMap decodeLine := by
  unfold decodedRecords batchLines
  simp only
  split <;> rfl

/-- The complete lines of the buffer and of whatever follows it are the lines a drain
takes, then the complete lines of what the drain keeps and of what follows. -/
theorem completeLines_drain (maxPoints : Nat) (s : MainWindow) (x : List Byte) :
    completeLines (s.serialData ++ x)
      = batchLines s.serialData ++ completeLines ((drain maxPoints s).serialData ++ x) := by
  unfold drain batchLines
  simp only
  by_cases hl : (split NL s.serialData).length > 1
  · simp only [hl, if_true]
    have hk : min 10 ((split NL s.serialData).length - 1) < (split NL s.serialData).length := by
      omega
    have hb := buffer_eq_unlines_append s.serialData _ hk
    have hno : ∀ l ∈ (split NL s.serialData).take (min 10 ((split NL s.serialData).length - 1)),
        NL ∉ l := fun l hl => not_mem_of_mem_split NL s.serialData l (List.mem_of_mem_take hl)
    conv_lhs => rw [hb]
    rw [List.append_assoc, completeLines_unlines_append _ _ hno]
  · simp only [hl, if_false, List.nil_append]

theorem map_eq_map_some_filterMap {α β : Type} (f : α → Option β) (l : List α)
    (h : ∀ x ∈ l, (f x).isSome = true) : l.map f = (l.filterMap f).map some := by
  induction l with
  | nil => rfl
  | cons x xs ih =>
    have hx := h x (by simp)
    obtain ⟨y, hy⟩ := Option.isSome_iff_exists.mp hx
    rw [List.map_cons, List.filterMap_cons, hy, List.map_cons,
      ih (fun z hz => h z (by simp [hz]))]

/-- One drain over a shaped history whose batch lines all pass every check: each channel
is the prior series followed by the fields of the decoded records, without as many of its
oldest samples. -/
theorem drain_history (maxPoints : Nat) (s : MainWindow) (hM : 10 ≤ maxPoints)
    (hshape : Shaped maxPoints s.plotData)
    (hvalid : ∀ l ∈ batchLines s.serialData, (decodeLine l).isSome = true)
    (c : Nat) (hc : c < CHANNELS) :
    (drain maxPoints s).plotData.getD c []
      = (s.plotData.getD c [] ++ (decodedRecords s.serialData).map (fun r => r.getD c 0)).drop
          (decodedRecords s.serialData).length := by
  obtain ⟨hpd, hlen⟩ := hshape
  have hcp : c < s.plotData.length := by omega
  have ha := getD_length_of_forall s.plotData maxPoints c hcp hlen
  by_cases hl : (split NL s.serialData).length > 1
  · have hb := batchSize_pos s.serialData hl
    have hk : batchSize s.serialData ≤ maxPoints := by omega
    have hbl : batchLines s.serialData = (split NL s.serialData).take (batchSize s.serialData) := by
      unfold batchLines batchSize
      simp only [hl, if_true]
    have hwf := map_eq_map_some_filterMap decodeLine _ hvalid
    rw [← decodedRecords_eq_batchLines, hbl] at hwf
    have hrl : (decodedRecords s.serialData).length = batchSize s.serialData := by
      have := congrArg List.length hwf
      rw [List.length_map, List.length_map, List.length_take] at this
      have := batchSize_lt s.serialData hl
      omega
    rw [drain_series maxPoints s c hl hk hc hcp ha,
      map_lineSlot_of_decoded _ (decodedRecords s.serialData) _ c _ hc
        (by have := batchSize_lt s.serialData hl; omega) hwf,
      hrl, List.drop_append_of_le_length (by omega)]
  · have e : drain maxPoints s = s := by
      unfold drain
      simp only [hl, if_false]
    have e2 : decodedRecords s.serialData = [] := by
      unfold decodedRecords
      simp only [hl, if_false]
    rw [e, e2]
    simp

/-- One poll over a shaped history, when the bytes received so far and still to come are
within the cap and all their complete lines pass every check: what remains to come has
the same two properties, and each channel is the prior series followed by the fields of
the records the poll decodes, without as many of its oldest samples. -/
theorem updatePlot_history (maxPoints : Nat) (s : MainWindow) (ch x : List Byte)
    (hM : 10 ≤ maxPoints)
    (hact : s.isAcquiring = true ∧ s.isPaused = false ∧ s.portOpen = true)
    (hshape : Shaped maxPoints s.plotData)
    (hlen : (s.serialData ++ (ch ++ x)).length ≤ 100000)
    (hvalid : ∀ l ∈ completeLines (s.serialData ++ (ch ++ x)), (decodeLine l).isSome = true) :
    (∀ l ∈ completeLines ((updatePlot maxPoints s ch).serialData ++ x),
        (decodeLine l).isSome = true)
    ∧ ((updatePlot maxPoints s ch).serialData ++ x).length ≤ 100000
    ∧ ∀ c, c < CHANNELS →
        (updatePlot maxPoints s ch).plotData.getD c []
          = (s.plotData.getD c [] ++ (pollRecords s ch).map (fun r => r.getD c 0)).drop
              (pollRecords s ch).length := by
  by_cases hc : ch = []
  · subst hc
    have hu : updatePlot maxPoints s [] = s := by simp [updatePlot]
    have hp : pollRecords s [] = [] := by simp [pollRecords]
    rw [hu, hp]
    refine ⟨by simpa using hvalid, by simpa using hlen, ?_⟩
    intro c _
    simp
  · have hle : (s.serialData ++ ch).length ≤ 100000 := by
      simp only [List.length_append] at hlen ⊢
      omega
    have happ := appendData_of_le s.serialData ch hle
    have hu := updatePlot_active maxPoints s ch hact hc
    have hp : pollRecords s ch = decodedRecords (s.serialData ++ ch) := by
      obtain ⟨h1, h2, h3⟩ := hact
      have h4 : ch.isEmpty = false := by
        cases ch with
        | nil => exact absurd rfl hc
        | cons _ _ => rfl
      simp [pollRecords, h1, h2, h3, h4, happ]
    rw [hu, hp, happ]
    have hcl := completeLines_drain maxPoints { s with serialData := s.serialData ++ ch } x
    simp only at hcl
    rw [← List.append_assoc] at hvalid
    rw [hcl] at hvalid
    have hs := drain_serialData_length_le maxPoints { s with serialData := s.serialData ++ ch }
    simp only at hs
    refine ⟨fun l hl => hvalid l (List.mem_append_right _ hl), ?_, ?_⟩
    · simp only [List.length_append] at hlen hs ⊢
      omega
    · intro c hcc
      exact drain_history maxPoints { s with serialData := s.serialData ++ ch } hM hshape
        (fun l hl => hvalid l (List.mem_append_left _ hl)) c hcc

theorem drop_append_drop (a r1 r2 : List Int) :
    ((a ++ r1).drop r1.length ++ r2).drop r2.length
      = (a ++ (r1 ++ r2)).drop (r1 ++ r2).length := by
  rw [← List.drop_append_of_le_length (by simp), List.drop_drop, List.length_append,
    List.append_assoc, Nat.add_comm]

/-- The polls of a chunking store exactly the records they decode, when all complete lines
received pass every check and the bytes stay within the cap. -/
theorem feed_history (maxPoints : Nat) (hM : 10 ≤ maxPoints) (chunks : List (List Byte)) :
    ∀ s : MainWindow, s.isAcquiring = true ∧ s.isPaused = false ∧ s.portOpen = true →
      Shaped maxPoints s.plotData →
      (s.serialData ++ allBytes chunks).length ≤ 100000 →
      (∀ l ∈ completeLines (s.serialData ++ allBytes chunks), (decodeLine l).isSome = true) →
      ∀ c, c < CHANNELS →
        (feed maxPoints s chunks).1.plotData.getD c []
          = (s.plotData.getD c []
              ++ (feed maxPoints s chunks).2.map (fun r => r.getD c 0)).drop
              (feed maxPoints s chunks).2.length := by
  induction chunks with
  | nil =>
    intro s _ _ _ _ c _
    simp [feed]
  | cons ch cs ih =>
    intro s hact hshape hlen hvalid c hc
    simp only [allBytes] at hlen hvalid
    obtain ⟨hv2, hl2, hstep⟩ := updatePlot_history maxPoints s ch (allBytes cs) hM hact hshape
      hlen hvalid
    have hf := updatePlot_flags maxPoints s ch
    have hact2 : (updatePlot maxPoints s ch).isAcquiring = true
        ∧ (updatePlot maxPoints s ch).isPaused = false
        ∧ (updatePlot maxPoints s ch).portOpen = true := by
      rw [hf.1, hf.2.1, hf.2.2]
      exact hact
    have hsh2 := updatePlot_shaped maxPoints s ch hM hshape
    have h2 := ih (updatePlot maxPoints s ch) hact2 hsh2 hl2 hv2 c hc
    simp only [feed]
    rw [h2, hstep c hc, List.map_append]
    have e := drop_append_drop (s.plotData.getD c [])
      ((pollRecords s ch).map (fun r => r.getD c 0))
      ((feed maxPoints (updatePlot maxPoints s ch) cs).2.map (fun r => r.getD c 0))
    simp only [List.length_map, List.length_append] at e ⊢
    exact e

theorem feed_shaped (maxPoints : Nat) (hM : 10 ≤ maxPoints) (chunks : List (List Byte)) :
    ∀ s : MainWindow, Shaped maxPoints s.plotData →
      Shaped maxPoints (feed maxPoints s chunks).1.plotData := by
  induction chunks with
  | nil => intro s h; exact h
  | cons c cs ih =>
    intro s h
    simp only [feed]
    exact ih _ (updatePlot_shaped maxPoints s c hM h)

theorem validRecords_of_no_newline (b : List Byte) (h : NL ∉ b) : validRecords b = [] := by
  unfold validRecords
  rw [split_of_not_mem NL b h]
  rfl

theorem eq_of_getD_eq (p q : List (List Int)) (hp : p.length = CHANNELS)
    (hq : q.length = CHANNELS) (h : ∀ c, c < CHANNELS → p.getD c [] = q.getD c []) : p = q := by
  apply List.ext_getElem?
  intro c
  by_cases hc : c < CHANNELS
  · have h1 := h c hc
    have hcp : c < p.length := by omega
    have hcq : c < q.length := by omega
    rw [List.getD_eq_getElem?_getD, List.getD_eq_getElem?_getD,
      List.getElem?_eq_getElem hcp, List.getElem?_eq_getElem hcq] at h1
    simp only [Option.getD_some] at h1
    rw [List.getElem?_eq_getElem hcp, List.getElem?_eq_getElem hcq, h1]
  · rw [List.getElem?_eq_none (by omega), List.getElem?_eq_none (by omega)]

/-- The stored history and the accounting of one chunking, and the agreement of two
chunkings that leave no complete line buffered. -/
theorem feed_chunkings (maxPoints : Nat) (s : MainWindow) (chunks1 chunks2 : List (List Byte))
    (hM : 10 ≤ maxPoints)
    (hact : s.isAcquiring = true ∧ s.isPaused = false ∧ s.portOpen = true)
    (hshape : Shaped maxPoints s.plotData)
    (hsame : allBytes chunks1 = allBytes chunks2)
    (hlen : (s.serialData ++ allBytes chunks1).length ≤ 100000)
    (hvalid : ∀ l ∈ completeLines (s.serialData ++ allBytes chunks1),
      (decodeLine l).isSome = true) :
    (∀ c, c < CHANNELS →
        (feed maxPoints s chunks1).1.plotData.getD c []
          = (s.plotData.getD c []
              ++ (feed maxPoints s chunks1).2.map (fun r => r.getD c 0)).drop
              (feed maxPoints s chunks1).2.length)
    ∧ (feed maxPoints s chunks1).2 ++ validRecords (feed maxPoints s chunks1).1.serialData
        = validRecords (s.serialData ++ allBytes chunks1)
    ∧ (NL ∉ (feed maxPoints s chunks1).1.serialData →
        NL ∉ (feed maxPoints s chunks2).1.serialData →
        (feed maxPoints s chunks1).2 = (feed maxPoints s chunks2).2
        ∧ (feed maxPoints s chunks1).1.plotData = (feed maxPoints s chunks2).1.plotData) := by
  have h1 := feed_history maxPoints hM chunks1 s hact hshape hlen hvalid
  have h2 := feed_history maxPoints hM chunks2 s hact hshape (by rw [← hsame]; exact hlen)
    (by rw [← hsame]; exact hvalid)
  have a1 := feed_records maxPoints chunks1 s hact hlen
  have a2 := feed_records maxPoints chunks2 s hact (by rw [← hsame]; exact hlen)
  refine ⟨h1, a1, ?_⟩
  intro n1 n2
  rw [validRecords_of_no_newline _ n1, List.append_nil] at a1
  rw [validRecords_of_no_newline _ n2, List.append_nil, ← hsame] at a2
  have hr : (feed maxPoints s chunks1).2 = (feed maxPoints s chunks2).2 := by rw [a1, a2]
  refine ⟨hr, ?_⟩
  apply eq_of_getD_eq _ _ (feed_shaped maxPoints hM chunks1 s hshape).1
    (feed_shaped maxPoints hM chunks2 s hshape).1
  intro c hc
  rw [h1 c hc, h2 c hc, hr]

/-- C2, amended. Over a history of `CHANNELS` series of length `maxPoints ≥ 10`, for bytes
that with what the buffer holds are at most 100000 and whose complete lines all are valid
records, fed under any chunking, one poll per chunk: the polls store exactly the records
they decode (each channel is the prior series followed by that channel's fields of the
decoded records, in order, without as many of its oldest samples); the decoded records
followed by the valid records still buffered are the valid records of the whole byte
sequence; and two chunkings of the same bytes that both leave no complete line buffered
decode the same sequence of records and leave the same channel history. -/
theorem C2_chunking_stored_records (maxPoints : Nat) (s : MainWindow)
    (chunks1 chunks2 : List (List Byte)) (hM : 10 ≤ maxPoints)
    (hact : s.isAcquiring = true ∧ s.isPaused = false ∧ s.portOpen = true)
    (hshape : Shaped maxPoints s.plotData)
    (hsame : allBytes chunks1 = allBytes chunks2)
    (hlen : (s.serialData ++ allBytes chunks1).length ≤ 100000)
    (hvalid : ∀ l ∈ completeLines (s.serialData ++ allBytes chunks1),
      (decodeLine l).isSome = true) :
    (∀ c, c < CHANNELS →
        (feed maxPoints s chunks1).1.plotData.getD c []
          = (s.plotData.getD c []
              ++ (feed maxPoints s chunks1).2.map (fun r => r.getD c 0)).drop
              (feed maxPoints s chunks1).2.length)
    ∧ (feed maxPoints s chunks1).2 ++ validRecords (feed maxPoints s chunks1).1.serialData
        = validRecords (s.serialData ++ allBytes chunks1)
    ∧ (NL ∉ (feed maxPoints s chunks1).1.serialData →
        NL ∉ (feed maxPoints s chunks2).1.serialData →
        (feed maxPoints s chunks1).2 = (feed maxPoints s chunks2).2
        ∧ (feed maxPoints s chunks1).1.plotData = (feed maxPoints s chunks2).1.plotData) :=
  feed_chunkings maxPoints s chunks1 chunks2 hM hact hshape hsame hlen hvalid

/-- C2 amended, on a depth-12 history of zeros and the three lines `1<TAB>1<TAB>1<TAB>1`,
`2<TAB>2<TAB>2<TAB>2`, `3<TAB>3<TAB>3<TAB>3`: fed as two lines then one (cut inside a
line), and fed as one chunk, the channel histories are the same, with 1, 2, 3 in the
newest slots of channel 0. -/
theorem C2_chunking_stored_records_witness :
    (feed 12 ⟨true, false, true, [], initPlotData 12⟩
        [[49, 9, 49, 9, 49, 9, 49, 10, 50, 9, 50, 9, 50, 9, 50, 10, 51, 9],
          [51, 9, 51, 9, 51, 10]]).1.plotData
      = (feed 12 ⟨true, false, true, [], initPlotData 12⟩
        [[49, 9, 49, 9, 49, 9, 49, 10, 50, 9, 50, 9, 50, 9, 50, 10, 51, 9,
          51, 9, 51, 9, 51, 10]]).1.plotData
    ∧ (feed 12 ⟨true, false, true, [], initPlotData 12⟩
        [[49, 9, 49, 9, 49, 9, 49, 10, 50, 9, 50, 9, 50, 9, 50, 10, 51, 9],
          [51, 9, 51, 9, 51, 10]]).1.plotData.getD 0 []
      = [0, 0, 0, 0, 0, 0, 0, 0, 0, 1, 2, 3] :=
  ⟨((C2_chunking_stored_records 12 ⟨true, false, true, [], initPlotData 12⟩
      [[49, 9, 49, 9, 49, 9, 49, 10, 50, 9, 50, 9, 50, 9, 50, 10, 51, 9],
        [51, 9, 51, 9, 51, 10]]
      [[49, 9, 49, 9, 49, 9, 49, 10, 50, 9, 50, 9, 50, 9, 50, 10, 51, 9,
        51, 9, 51, 9, 51, 10]]
      (by decide) (by decide) (by decide) (by decide) (by decide) (by decide)).2.2
        (by decide) (by decide)).2,
    by decide⟩

/-- The newest slot of a channel after a poll that takes a batch: what the last line of
the batch leaves there. -/
theorem newestSlot_poll (maxPoints : Nat) (s : MainWindow) (newData : List Byte) (c : Nat)
    (hact : s.isAcquiring = true ∧ s.isPaused = false ∧ s.portOpen = true)
    (hnew : newData ≠ [])
    (hshape : Shaped maxPoints s.plotData)
    (hlines : (split NL (appendData s.serialData newData)).length > 1)
    (hk : batchSize (appendData s.serialData newData) ≤ maxPoints)
    (hc : c < CHANNELS) :
    ((updatePlot maxPoints s newData).plotData.getD c []).getD (maxPoints - 1) 0
      = lineSlot ((split NL (appendData s.serialData newData)).getD
            (batchSize (appendData s.serialData newData) - 1) []) c
          ((s.plotData.getD c []).getD (maxPoints - 1) 0) := by
  obtain ⟨hpd, hlen⟩ := hshape
  have hcp : c < s.plotData.length := by omega
  have ha := getD_length_of_forall s.plotData maxPoints c hcp hlen
  have hb := batchSize_pos _ hlines
  have hser := drain_series maxPoints { s with serialData := appendData s.serialData newData } c
    hlines hk hc hcp ha
  simp only at hser
  rw [updatePlot_active maxPoints s newData hact hnew, hser]
  generalize batchSize (appendData s.serialData newData) = b at hk hb ⊢
  generalize s.plotData.getD c [] = a at ha ⊢
  have hX : (List.drop b a).length = maxPoints - b := by rw [List.length_drop, ha]
  conv_lhs => rw [List.getD_eq_getElem?_getD]
  rw [List.getElem?_append_right (by omega), hX]
  have e : maxPoints - 1 - (maxPoints - b) = b - 1 := by omega
  have e2 : maxPoints - b + (b - 1) = maxPoints - 1 := by omega
  rw [e, List.getElem?_map, List.getElem?_range (by omega)]
  simp only [Option.map_some', Option.getD_some, e2]

/-- The poll that reads one line and its newline into an empty buffer: the buffer is
empty again, and the newest slot of a channel holds what the line leaves there. -/
theorem poll_one_line (maxPoints : Nat) (s : MainWindow) (raw : List Byte) (c : Nat)
    (hact : s.isAcquiring = true ∧ s.isPaused = false ∧ s.portOpen = true)
    (hbuf : s.serialData = [])
    (hshape : Shaped maxPoints s.plotData) (hM : 1 ≤ maxPoints)
    (hnl : NL ∉ raw) (hlen : raw.length < 100000) (hc : c < CHANNELS) :
    (updatePlot maxPoints s (raw ++ [NL])).serialData = []
    ∧ ((updatePlot maxPoints s (raw ++ [NL])).plotData.getD c []).getD (maxPoints - 1) 0
        = lineSlot raw c ((s.plotData.getD c []).getD (maxPoints - 1) 0) := by
  have happ : appendData s.serialData (raw ++ [NL]) = raw ++ [NL] := by
    rw [hbuf]
    exact appendData_of_le _ _ (by
      rw [List.nil_append, List.length_append, List.length_singleton]; omega)
  have hsplit : split NL (raw ++ [NL]) = [raw, []] := by
    rw [split_append_sep NL raw [] hnl]
    rfl
  have hb : batchSize (raw ++ [NL]) = 1 := by
    unfold batchSize
    rw [hsplit]
    rfl
  constructor
  · rw [updatePlot_active _ _ _ hact (by simp)]
    simp only [happ]
    unfold drain
    simp only [hsplit]
    rw [if_pos (by simp)]
    have e : min 10 ([raw, ([] : List Byte)].length - 1) = 1 := by simp
    simp only [e]
    rfl
  · have h := newestSlot_poll maxPoints s (raw ++ [NL]) c hact (by simp) hshape
      (by rw [happ, hsplit]; simp) (by rw [happ, hb]; exact hM) hc
    rw [happ, hb, hsplit] at h
    exact h

theorem updatePlot_plotData_of_no_newline (maxPoints : Nat) (s : MainWindow)
    (newData : List Byte) (h : NL ∉ appendData s.serialData newData) :
    (updatePlot maxPoints s newData).plotData = s.plotData := by
  unfold updatePlot
  split
  · split
    · rw [drain_of_no_newline maxPoints _ h]
    · rfl
  · rfl

theorem newest_initPlotData (maxPoints c : Nat) (hc : c < CHANNELS) :
    ((initPlotData maxPoints).getD c []).getD (maxPoints - 1) 0 = 0 := by
  rw [initPlotData_getD maxPoints c hc, List.getD_eq_getElem?_getD, List.getElem?_replicate]
  split <;> rfl

/-- The newest slot of channel 0 after one valid line `7<TAB>7<TAB>7<TAB>7` and then `n`
bytes `x` without a newline, `n` just below the cap, over an all-zero history: fed as two
chunks the line is stored; fed as one chunk the append cuts the line off and nothing is
stored. -/
theorem truncation_history (maxPoints : Nat) (hM : 10 ≤ maxPoints) (n : Nat)
    (h1 : 99992 < n) (h2 : n ≤ 100000) :
    ((feed maxPoints ⟨true, false, true, [], initPlotData maxPoints⟩
        [[55, 9, 55, 9, 55, 9, 55, 10], List.replicate n 120]).1.plotData.getD 0 []).getD
        (maxPoints - 1) 0 = 7
    ∧ ((feed maxPoints ⟨true, false, true, [], initPlotData maxPoints⟩
        [[55, 9, 55, 9, 55, 9, 55, 10] ++ List.replicate n 120]).1.plotData.getD 0 []).getD
        (maxPoints - 1) 0 = 0 := by
  have hx : NL ∉ List.replicate n (120 : Byte) := fun h =>
    absurd (List.eq_of_mem_replicate h) (by decide)
  constructor
  · obtain ⟨hbuf, hslot⟩ := poll_one_line maxPoints
      ⟨true, false, true, [], initPlotData maxPoints⟩ [55, 9, 55, 9, 55, 9, 55] 0
      ⟨rfl, rfl, rfl⟩ rfl (shaped_initPlotData maxPoints) (by omega) (by decide) (by decide)
      (by decide)
    have hline : ([55, 9, 55, 9, 55, 9, 55] : List Byte) ++ [NL]
        = [55, 9, 55, 9, 55, 9, 55, 10] := rfl
    rw [hline] at hbuf hslot
    have hv : lineSlot [55, 9, 55, 9, 55, 9, 55] 0
        (((initPlotData maxPoints).getD 0 []).getD (maxPoints - 1) 0) = 7 :=
      lineSlot_of_decodeLine _ [7, 7, 7, 7] 0 _ (by decide) (by decide)
    have ha : appendData (updatePlot maxPoints ⟨true, false, true, [], initPlotData maxPoints⟩
        [55, 9, 55, 9, 55, 9, 55, 10]).serialData (List.replicate n 120)
        = List.replicate n 120 := by
      rw [hbuf]
      exact appendData_of_le _ _ (by rw [List.nil_append, List.length_replicate]; exact h2)
    simp only [feed]
    rw [updatePlot_plotData_of_no_newline maxPoints _ _ (by rw [ha]; exact hx), hslot, hv]
  · have ha : appendData [] ([55, 9, 55, 9, 55, 9, 55, 10] ++ List.replicate n 120)
        = List.replicate 50000 120 := by
      unfold appendData right
      simp only [List.nil_append]
      have hl : ([55, 9, 55, 9, 55, 9, 55, 10] ++ List.replicate n (120 : Byte)).length
          = 8 + n := by
        rw [List.length_append, List.length_replicate]
        rfl
      rw [hl, if_pos (by omega)]
      have e1 : 8 + n - 50000 = 8 + (n - 50000) := by omega
      have e2 : n - (n - 50000) = 50000 := by omega
      rw [e1, ← List.drop_drop, List.drop_left' (by rfl), List.drop_replicate, e2]
    have hx5 : NL ∉ List.replicate 50000 (120 : Byte) := fun h =>
      absurd (List.eq_of_mem_replicate h) (by decide)
    simp only [feed]
    rw [updatePlot_plotData_of_no_newline maxPoints _ _ (by
      show NL ∉ appendData [] ([55, 9, 55, 9, 55, 9, 55, 10] ++ List.replicate n 120)
      rw [ha]; exact hx5)]
    exact newest_initPlotData maxPoints 0 (by decide)

/-- The newest slot of channel 0 after ten lines `7<TAB>7<TAB>7<TAB>7` and one line
`8<TAB>8<TAB>8<TAB>8`, over an all-zero history: fed as two chunks (ten lines, then one)
all eleven records are stored; fed as one chunk the batch takes ten lines and the eleventh
is not stored, also after two further polls whose read is empty. -/
theorem backlog_history (maxPoints : Nat) (hM : 10 ≤ maxPoints) :
    ((feed maxPoints ⟨true, false, true, [], initPlotData maxPoints⟩
        [unlines NL (List.replicate 10 [55, 9, 55, 9, 55, 9, 55]),
          [56, 9, 56, 9, 56, 9, 56, 10]]).1.plotData.getD 0 []).getD (maxPoints - 1) 0 = 8
    ∧ ((feed maxPoints ⟨true, false, true, [], initPlotData maxPoints⟩
        [unlines NL (List.replicate 10 [55, 9, 55, 9, 55, 9, 55])
          ++ [56, 9, 56, 9, 56, 9, 56, 10]]).1.plotData.getD 0 []).getD (maxPoints - 1) 0 = 7
    ∧ ((feed maxPoints ⟨true, false, true, [], initPlotData maxPoints⟩
        [unlines NL (List.replicate 10 [55, 9, 55, 9, 55, 9, 55])
          ++ [56, 9, 56, 9, 56, 9, 56, 10], [], []]).1.plotData.getD 0 []).getD
        (maxPoints - 1) 0 = 7 := by
  have hone : ((updatePlot maxPoints ⟨true, false, true, [], initPlotData maxPoints⟩
      (unlines NL (List.replicate 10 [55, 9, 55, 9, 55, 9, 55])
        ++ [56, 9, 56, 9, 56, 9, 56, 10])).plotData.getD 0 []).getD (maxPoints - 1) 0 = 7 := by
    have h := newestSlot_poll maxPoints ⟨true, false, true, [], initPlotData maxPoints⟩
      (unlines NL (List.replicate 10 [55, 9, 55, 9, 55, 9, 55])
        ++ [56, 9, 56, 9, 56, 9, 56, 10]) 0 ⟨rfl, rfl, rfl⟩ (by decide)
      (shaped_initPlotData maxPoints)
      (by
        show (split NL (appendData [] (unlines NL (List.replicate 10 [55, 9, 55, 9, 55, 9, 55])
          ++ [56, 9, 56, 9, 56, 9, 56, 10]))).length > 1
        decide)
      (by
        have e : batchSize (appendData [] (unlines NL
            (List.replicate 10 [55, 9, 55, 9, 55, 9, 55])
            ++ [56, 9, 56, 9, 56, 9, 56, 10])) = 10 := by decide
        show batchSize (appendData [] (unlines NL (List.replicate 10 [55, 9, 55, 9, 55, 9, 55])
          ++ [56, 9, 56, 9, 56, 9, 56, 10])) ≤ maxPoints
        rw [e]; exact hM)
      (by decide)
    rw [h]
    have hd : decodeLine ((split NL (appendData []
        (unlines NL (List.replicate 10 [55, 9, 55, 9, 55, 9, 55])
          ++ [56, 9, 56, 9, 56, 9, 56, 10]))).getD
        (batchSize (appendData [] (unlines NL (List.replicate 10 [55, 9, 55, 9, 55, 9, 55])
          ++ [56, 9, 56, 9, 56, 9, 56, 10])) - 1) []) = some [7, 7, 7, 7] := by decide
    exact lineSlot_of_decodeLine _ [7, 7, 7, 7] 0 _ hd (by decide)
  refine ⟨?_, ?_, ?_⟩
  · have hw := poll_wellFormed maxPoints (List.replicate 10 [7, 7, 7, 7])
      (initPlotData maxPoints) (by decide) (by decide) (by decide)
    have ew : unlines NL ((List.replicate 10 [7, 7, 7, 7]).map renderRecord)
        = unlines NL (List.replicate 10 [55, 9, 55, 9, 55, 9, 55]) := by decide
    rw [ew] at hw
    have hbuf := hw.2.2.2.2
    have hf := updatePlot_flags maxPoints ⟨true, false, true, [], initPlotData maxPoints⟩
      (unlines NL (List.replicate 10 [55, 9, 55, 9, 55, 9, 55]))
    have hsh := updatePlot_shaped maxPoints ⟨true, false, true, [], initPlotData maxPoints⟩
      (unlines NL (List.replicate 10 [55, 9, 55, 9, 55, 9, 55])) hM
      (shaped_initPlotData maxPoints)
    have hp := (poll_one_line maxPoints _ [56, 9, 56, 9, 56, 9, 56] 0 hf hbuf hsh (by omega)
      (by decide) (by decide) (by decide)).2
    simp only [feed]
    have hline : ([56, 9, 56, 9, 56, 9, 56] : List Byte) ++ [NL]
        = [56, 9, 56, 9, 56, 9, 56, 10] := rfl
    rw [hline] at hp
    rw [hp]
    exact lineSlot_of_decodeLine _ [8, 8, 8, 8] 0 _ (by decide) (by decide)
  · simp only [feed]
    exact hone
  · have hu : ∀ s : MainWindow, updatePlot maxPoints s [] = s := fun s => by
      simp [updatePlot]
    simp only [feed, hu]
    exact hone

/-- The newest slot of channel 0 after the line `7<TAB>7<TAB>7<TAB>7` and the line `x`,
over an all-zero history: fed as two chunks the skipped line keeps the 7 the first poll
stored; fed as one chunk it keeps the 0 the slot held before. -/
theorem stale_history (maxPoints : Nat) (hM : 10 ≤ maxPoints) :
    ((feed maxPoints ⟨true, false, true, [], initPlotData maxPoints⟩
        [[55, 9, 55, 9, 55, 9, 55, 10], [120, 10]]).1.plotData.getD 0 []).getD
        (maxPoints - 1) 0 = 7
    ∧ ((feed maxPoints ⟨true, false, true, [], initPlotData maxPoints⟩
        [[55, 9, 55, 9, 55, 9, 55, 10, 120, 10]]).1.plotData.getD 0 []).getD
        (maxPoints - 1) 0 = 0 := by
  constructor
  · obtain ⟨hbuf, hslot⟩ := poll_one_line maxPoints
      ⟨true, false, true, [], initPlotData maxPoints⟩ [55, 9, 55, 9, 55, 9, 55] 0
      ⟨rfl, rfl, rfl⟩ rfl (shaped_initPlotData maxPoints) (by omega) (by decide) (by decide)
      (by decide)
    have hline : ([55, 9, 55, 9, 55, 9, 55] : List Byte) ++ [NL]
        = [55, 9, 55, 9, 55, 9, 55, 10] := rfl
    rw [hline] at hbuf hslot
    have hv : lineSlot [55, 9, 55, 9, 55, 9, 55] 0
        (((initPlotData maxPoints).getD 0 []).getD (maxPoints - 1) 0) = 7 :=
      lineSlot_of_decodeLine _ [7, 7, 7, 7] 0 _ (by decide) (by decide)
    have hf := updatePlot_flags maxPoints ⟨true, false, true, [], initPlotData maxPoints⟩
      [55, 9, 55, 9, 55, 9, 55, 10]
    have hsh := updatePlot_shaped maxPoints ⟨true, false, true, [], initPlotData maxPoints⟩
      [55, 9, 55, 9, 55, 9, 55, 10] hM (shaped_initPlotData maxPoints)
    have hp := (poll_one_line maxPoints _ [120] 0 hf hbuf hsh (by omega)
      (by decide) (by decide) (by decide)).2
    have hline2 : ([120] : List Byte) ++ [NL] = [120, 10] := rfl
    rw [hline2] at hp
    simp only [feed]
    rw [hp, lineSlot_of_count _ _ _ (by decide), hslot, hv]
  · have h := newestSlot_poll maxPoints ⟨true, false, true, [], initPlotData maxPoints⟩
      [55, 9, 55, 9, 55, 9, 55, 10, 120, 10] 0 ⟨rfl, rfl, rfl⟩ (by decide)
      (shaped_initPlotData maxPoints)
      (by
        show (split NL (appendData [] [55, 9, 55, 9, 55, 9, 55, 10, 120, 10])).length > 1
        decide)
      (by
        have e : batchSize (appendData [] [55, 9, 55, 9, 55, 9, 55, 10, 120, 10]) = 2 := by
          decide
        show batchSize (appendData [] [55, 9, 55, 9, 55, 9, 55, 10, 120, 10]) ≤ maxPoints
        rw [e]; omega)
      (by decide)
    simp only [feed]
    rw [h]
    have hc : (split TAB (trimmed ((split NL
        (appendData [] [55, 9, 55, 9, 55, 9, 55, 10, 120, 10])).getD
        (batchSize (appendData [] [55, 9, 55, 9, 55, 9, 55, 10, 120, 10]) - 1) []))).length
        ≠ CHANNELS := by decide
    exact (lineSlot_of_count _ _ _ hc).trans (newest_initPlotData maxPoints 0 (by decide))

/-- C2, refuted as stated, on the channel history the polls leave, over an all-zero
history of depth `MAX_PLOT_POINTS`; the value shown is the newest slot of channel 0.
(1) Ten lines `7<TAB>7<TAB>7<TAB>7` and one line `8<TAB>8<TAB>8<TAB>8`: fed as ten lines
then one, the last record stored is the eleventh (8); fed as one chunk, the poll takes ten
lines and the last record stored is the tenth (7), also after two polls whose read is
empty. (2) The line `7<TAB>7<TAB>7<TAB>7` followed by 100000 bytes `x`: fed as two chunks
the record is stored (7); fed as one chunk of 100008 bytes the append keeps the last 50000
bytes and nothing is stored (0). (3) The line `7<TAB>7<TAB>7<TAB>7` followed by the line
`x`: fed as two chunks the slot of the skipped line holds 7; fed as one chunk it holds
0. -/
theorem C2_counterexample :
    (((feed MAX_PLOT_POINTS ⟨true, false, true, [], initPlotData MAX_PLOT_POINTS⟩
          [unlines NL (List.replicate 10 [55, 9, 55, 9, 55, 9, 55]),
            [56, 9, 56, 9, 56, 9, 56, 10]]).1.plotData.getD 0 []).getD 999 0 = 8
      ∧ ((feed MAX_PLOT_POINTS ⟨true, false, true, [], initPlotData MAX_PLOT_POINTS⟩
          [unlines NL (List.replicate 10 [55, 9, 55, 9, 55, 9, 55])
            ++ [56, 9, 56, 9, 56, 9, 56, 10]]).1.plotData.getD 0 []).getD 999 0 = 7
      ∧ ((feed MAX_PLOT_POINTS ⟨true, false, true, [], initPlotData MAX_PLOT_POINTS⟩
          [unlines NL (List.replicate 10 [55, 9, 55, 9, 55, 9, 55])
            ++ [56, 9, 56, 9, 56, 9, 56, 10], [], []]).1.plotData.getD 0 []).getD 999 0 = 7)
    ∧ (((feed MAX_PLOT_POINTS ⟨true, false, true, [], initPlotData MAX_PLOT_POINTS⟩
          [[55, 9, 55, 9, 55, 9, 55, 10], List.replicate 100000 120]).1.plotData.getD
            0 []).getD 999 0 = 7
      ∧ ((feed MAX_PLOT_POINTS ⟨true, false, true, [], initPlotData MAX_PLOT_POINTS⟩
          [[55, 9, 55, 9, 55, 9, 55, 10] ++ List.replicate 100000 120]).1.plotData.getD
            0 []).getD 999 0 = 0)
    ∧ (((feed MAX_PLOT_POINTS ⟨true, false, true, [], initPlotData MAX_PLOT_POINTS⟩
          [[55, 9, 55, 9, 55, 9, 55, 10], [120, 10]]).1.plotData.getD 0 []).getD 999 0 = 7
      ∧ ((feed MAX_PLOT_POINTS ⟨true, false, true, [], initPlotData MAX_PLOT_POINTS⟩
          [[55, 9, 55, 9, 55, 9, 55, 10, 120, 10]]).1.plotData.getD 0 []).getD 999 0 = 0) :=
  ⟨backlog_history MAX_PLOT_POINTS (by decide),
    truncation_history MAX_PLOT_POINTS (by decide) 100000 (by decide) (by decide),
    stale_history MAX_PLOT_POINTS (by decide)⟩

end UartScope
